import Mathlib

/-!
Verification development for the classical-Chinese teaching-assistant web
application.  The TypeScript sources (`utils/api.ts`, `utils/text.ts`,
`App.tsx`) are shallowly embedded below: strings are `List Char`
(UTF-16-free model, adequate for the BMP text the app handles), JSON values
are the inductive `JValue`, network replies are explicit data, and the
React handlers become pure state-transition functions on `AppState`.
-/

/-- Whitespace recognised by `String.prototype.trim` and by the JSON
grammar (space, tab, newline, carriage return; the rarer JS whitespace
code points are not produced by any input considered here). -/
def isJsWs (c : Char) : Bool :=
  c = ' ' || c = '\t' || c = '\n' || c = '\r'

/-- `s.trim()` on a JS string: drop leading and trailing whitespace. -/
def trimChars (l : List Char) : List Char :=
  ((l.dropWhile isJsWs).reverse.dropWhile isJsWs).reverse

/-- `Math.round(a / b)` for natural `a` and positive `b`: JS rounds half
away from zero (towards plus infinity for non-negative arguments), i.e.
`⌊a / b + 1 / 2⌋ = ⌊(2 a + b) / (2 b)⌋`. -/
def jsRoundDiv (a b : Nat) : Nat :=
  (2 * a + b) / (2 * b)

/-- JSON values as produced by `JSON.parse`.  Numbers are modelled as
rationals (JS doubles on the JSON grammar are exact for the small literals
appearing here); object fields keep their textual order, later duplicates
shadowing earlier ones on access. -/
inductive JValue where
  | null : JValue
  | bool (b : Bool) : JValue
  | num (q : Rat) : JValue
  | str (s : List Char) : JValue
  | arr (items : List JValue) : JValue
  | obj (fields : List (List Char × JValue)) : JValue

/-- JS property access `v[k]` for non-nullish `v`: a field lookup on an
object (last duplicate wins, as in `JSON.parse`), `undefined` (`none`)
on every other value. -/
def jsGet (v : JValue) (k : List Char) : Option JValue :=
  match v with
  | .obj fields => (fields.filter (fun f => f.1 = k)).getLast?.map (fun f => f.2)
  | _ => none

/-- JS truthiness of a parsed JSON value. -/
def jsTruthy : JValue → Bool
  | .null => false
  | .bool b => b
  | .num q => q ≠ 0
  | .str s => s ≠ []
  | .arr _ => true
  | .obj _ => true

/-- JS truthiness of an optional string (`undefined` and `""` are falsy). -/
def jsStrTruthy : Option (List Char) → Bool
  | none => false
  | some s => s ≠ []

/-- Hexadecimal digit value, if any. -/
def hexDigitVal (c : Char) : Option Nat :=
  if '0' ≤ c ∧ c ≤ '9' then some (c.toNat - '0'.toNat)
  else if 'a' ≤ c ∧ c ≤ 'f' then some (c.toNat - 'a'.toNat + 10)
  else if 'A' ≤ c ∧ c ≤ 'F' then some (c.toNat - 'A'.toNat + 10)
  else none

/-- Decimal digits to a natural number. -/
def digitsToNat (ds : List Char) : Nat :=
  ds.foldl (fun acc c => acc * 10 + (c.toNat - '0'.toNat)) 0

/-- `10 ^ k` on naturals by plain recursion (kept free of typeclass
power so that concrete parses reduce by `rfl`). -/
def pow10Nat : Nat → Nat
  | 0 => 1
  | k + 1 => 10 * pow10Nat k

/-- Body of a JSON string literal (after the opening quote); returns the
decoded characters and the input following the closing quote.  Modelled
from the spec: this is the string production of the strict JSON grammar
used by `JSON.parse` (escaped surrogate halves, which Lean `Char` cannot
represent, are rejected rather than paired). -/
def parseJsonStringBody : List Char → Option (List Char × List Char)
  | [] => none
  | '"' :: rest => some ([], rest)
  | '\\' :: 'u' :: a :: b :: c :: d :: rest => do
    let ha ← hexDigitVal a
    let hb ← hexDigitVal b
    let hc ← hexDigitVal c
    let hd ← hexDigitVal d
    let n := ((ha * 16 + hb) * 16 + hc) * 16 + hd
    if h : n.isValidChar then
      let (s, r) ← parseJsonStringBody rest
      some (Char.ofNatAux n h :: s, r)
    else none
  | '\\' :: e :: rest => do
    let c ← match e with
      | '"' => some '"'
      | '\\' => some '\\'
      | '/' => some '/'
      | 'b' => some '\x08'
      | 'f' => some '\x0c'
      | 'n' => some '\n'
      | 'r' => some '\r'
      | 't' => some '\t'
      | _ => none
    let (s, r) ← parseJsonStringBody rest
    some (c :: s, r)
  | c :: rest =>
    if c.toNat < 32 then none
    else do
      let (s, r) ← parseJsonStringBody rest
      some (c :: s, r)

/-- The number production of the strict JSON grammar. -/
def parseJsonNumber (cs : List Char) : Option (JValue × List Char) :=
  let (neg, cs1) := match cs with
    | '-' :: r => (true, r)
    | _ => (false, cs)
  let intDigits := cs1.takeWhile Char.isDigit
  if intDigits = [] then none
  else if 1 < intDigits.length ∧ intDigits.headD 'x' = '0' then none
  else
    let rest1 := cs1.drop intDigits.length
    let (fracDigits, rest2) := match rest1 with
      | '.' :: r =>
        let f := r.takeWhile Char.isDigit
        (f, r.drop f.length)
      | _ => ([], rest1)
    match rest1 with
    | '.' :: _ =>
      if fracDigits = [] then none else parseJsonNumberTail neg intDigits fracDigits rest2
    | _ => parseJsonNumberTail neg intDigits fracDigits rest2
where
  /-- Optional exponent part and assembly of the rational value. -/
  parseJsonNumberTail (neg : Bool) (intDigits fracDigits : List Char) (rest : List Char) :
      Option (JValue × List Char) :=
    let (expOk, expVal, rest3) := match rest with
      | 'e' :: r => parseJsonExp r
      | 'E' :: r => parseJsonExp r
      | _ => (true, (0 : Int), rest)
    if expOk then
      let mantissa : Int :=
        Int.ofNat (digitsToNat intDigits * pow10Nat fracDigits.length +
          digitsToNat fracDigits)
      let signed : Int := if neg then -mantissa else mantissa
      let scale : Int := expVal - (fracDigits.length : Int)
      let value : Rat :=
        if 0 ≤ scale then mkRat (signed * Int.ofNat (pow10Nat scale.toNat)) 1
        else mkRat signed (pow10Nat (-scale).toNat)
      some (.num value, rest3)
    else none
  /-- Exponent digits with optional sign. -/
  parseJsonExp (r : List Char) : Bool × Int × List Char :=
    let (sgn, r1) := match r with
      | '+' :: t => ((1 : Int), t)
      | '-' :: t => ((-1 : Int), t)
      | _ => ((1 : Int), r)
    let ds := r1.takeWhile Char.isDigit
    if ds = [] then (false, 0, r) else (true, sgn * (digitsToNat ds : Int), r1.drop ds.length)

/-- Drop JSON insignificant whitespace. -/
def skipJsonWs (l : List Char) : List Char :=
  l.dropWhile isJsWs

mutual

/-- One JSON value, fuel-bounded recursive descent.  Modelled from the
spec: the strict parse performed by `JSON.parse` ("attempt strict parse").
The fuel passed by `parseJson` always suffices for terminating inputs. -/
def parseJsonValue : Nat → List Char → Option (JValue × List Char)
  | 0, _ => none
  | fuel + 1, cs =>
    match skipJsonWs cs with
    | 'n' :: 'u' :: 'l' :: 'l' :: rest => some (.null, rest)
    | 't' :: 'r' :: 'u' :: 'e' :: rest => some (.bool true, rest)
    | 'f' :: 'a' :: 'l' :: 's' :: 'e' :: rest => some (.bool false, rest)
    | '"' :: rest => (parseJsonStringBody rest).map (fun p => (.str p.1, p.2))
    | '[' :: rest =>
      (match skipJsonWs rest with
       | ']' :: rest2 => some (.arr [], rest2)
       | other => (parseJsonElems fuel other).map (fun p => (.arr p.1, p.2)))
    | '\x7b' :: rest =>
      (match skipJsonWs rest with
       | '\x7d' :: rest2 => some (.obj [], rest2)
       | other => (parseJsonFields fuel other).map (fun p => (.obj p.1, p.2)))
    | other => parseJsonNumber other

/-- Comma-separated array elements up to the closing bracket. -/
def parseJsonElems : Nat → List Char → Option (List JValue × List Char)
  | 0, _ => none
  | fuel + 1, cs => do
    let (v, rest) ← parseJsonValue fuel cs
    match skipJsonWs rest with
    | ',' :: rest2 => (parseJsonElems fuel rest2).map (fun p => (v :: p.1, p.2))
    | ']' :: rest2 => some ([v], rest2)
    | _ => none

/-- Comma-separated object members up to the closing brace. -/
def parseJsonFields : Nat → List Char → Option (List (List Char × JValue) × List Char)
  | 0, _ => none
  | fuel + 1, cs =>
    match skipJsonWs cs with
    | '"' :: rest => do
      let (key, rest1) ← parseJsonStringBody rest
      match skipJsonWs rest1 with
      | ':' :: rest2 => do
        let (v, rest3) ← parseJsonValue fuel rest2
        match skipJsonWs rest3 with
        | ',' :: rest4 => (parseJsonFields fuel rest4).map (fun p => ((key, v) :: p.1, p.2))
        | '\x7d' :: rest4 => some ([(key, v)], rest4)
        | _ => none
      | _ => none
    | _ => none

end

/-- Strict parse of an entire text, as `JSON.parse`: one value, then only
whitespace.  `none` models the `SyntaxError` throw. -/
def parseJson (cs : List Char) : Option JValue :=
  match parseJsonValue (2 * cs.length + 2) cs with
  | some (v, rest) => if skipJsonWs rest = [] then some v else none
  | none => none

/-- The candidate text handed to `JSON.parse` by `tryParseJson`
(`utils/api.ts`): the reply is trimmed and matched against the greedy
regex `/\x7b[\s\S]*\x7d/`, whose match runs from the first brace to the
last closing brace; without a match the trimmed reply itself is used. -/
def jsonCandidate (raw : List Char) : List Char :=
  let t := trimChars raw
  let rest := t.dropWhile (fun c => c ≠ '\x7b')
  let cand := (rest.reverse.dropWhile (fun c => c ≠ '\x7d')).reverse
  if cand.isEmpty then t else cand

/-- `tryParseJson` from `utils/api.ts`: extract the brace-delimited
candidate and strictly parse it; `none` models the exception path that
`requestChatCompletion` converts into a `ModelJsonError`. -/
def tryParseJson (raw : List Char) : Option JValue :=
  parseJson (jsonCandidate raw)

/-- Is the character one of the delimiters of the string branch of
`normalizeStringArray` (full-width or half-width semicolon)? -/
def isSemi (c : Char) : Bool :=
  c = '；' || c = ';'

/-- The split performed by `value.split(/\r?\n|[；;]+/)` in
`normalizeStringArray` (`utils/api.ts`): segments are separated by a
(possibly CR-prefixed) newline or by a maximal run of semicolons. -/
def splitNewlineSemis : List Char → List (List Char)
  | [] => [[]]
  | '\r' :: '\n' :: rest => [] :: splitNewlineSemis rest
  | '\n' :: rest => [] :: splitNewlineSemis rest
  | c :: rest =>
    if isSemi c then [] :: splitNewlineSemis (rest.dropWhile isSemi)
    else
      match splitNewlineSemis rest with
      | s :: ss => (c :: s) :: ss
      | [] => [[c]]
termination_by l => l.length
decreasing_by
  · simp only [List.length_cons]
    omega
  · simp only [List.length_cons]
    omega
  · have := (List.dropWhile_sublist (l := rest) isSemi).length_le
    simp only [List.length_cons]
    omega
  · simp only [List.length_cons]
    omega

/-- `normalizeStringArray` from `utils/api.ts`: a native array keeps its
trimmed non-empty string items (non-strings are coerced to the empty
string and dropped); a string is split on line breaks and semicolon runs,
trimmed and purged of empty segments; everything else is empty. -/
def normalizeStringArray (value : Option JValue) : List (List Char) :=
  match value with
  | some (.arr items) =>
    (items.map (fun item => match item with
      | .str s => trimChars s
      | _ => [])).filter (fun item => item.length > 0)
  | some (.str s) =>
    ((splitNewlineSemis s).map trimChars).filter (fun segment => segment.length > 0)
  | _ => []

/-- One sentence of an `AnalysisResult` (`types.ts`). -/
structure AnalysisSentence where
  original : List Char
  simplified : List Char
  explanation : List (List Char)
deriving DecidableEq

/-- `AnalysisResult` (`types.ts`). -/
structure AnalysisResult where
  sentences : List AnalysisSentence
deriving DecidableEq

/-- `HistoricalContextResult` (`types.ts`). -/
structure HistoricalContextResult where
  overview : List Char
  recentEvents : List (List Char)
deriving DecidableEq

/-- `EMPTY_ANALYSIS` (`utils/api.ts`). -/
def EMPTY_ANALYSIS : AnalysisResult := ⟨[]⟩

/-- `EMPTY_HISTORY` (`utils/api.ts`). -/
def EMPTY_HISTORY : HistoricalContextResult := ⟨[], []⟩

/-- The string coercion `typeof v === 'string' ? v : ''` applied to a
possibly missing field. -/
def jsStringOrEmpty (v : Option JValue) : List Char :=
  match v with
  | some (.str s) => s
  | _ => []

/-- The engine message of the `TypeError` thrown by the per-sentence
closure of `normalizeAnalysisResult` when a `sentences` entry is `null`:
reading `sentence.original` of `null` throws before any coercion runs. -/
def typeErrorNullOriginalMsg : List Char :=
  "Cannot read properties of null (reading 'original')".data

/-- `normalizeAnalysisResult` from `utils/api.ts`, per-sentence body of
the source's `map` closure: a `null` entry throws the `TypeError` when
`sentence.original` is read (JSON arrays cannot hold `undefined`, and
property access on any other JSON value yields `undefined` without
throwing); otherwise coerce `original`/`simplified` to strings, normalize
`explanation`, and return `null` (dropped later) when all three are
empty. -/
def normalizeAnalysisSentence (sentence : JValue) :
    Except (List Char) (Option AnalysisSentence) :=
  match sentence with
  | .null => .error typeErrorNullOriginalMsg
  | _ =>
    let original := jsStringOrEmpty (jsGet sentence ("original".data))
    let simplified := jsStringOrEmpty (jsGet sentence ("simplified".data))
    let explanation := normalizeStringArray (jsGet sentence ("explanation".data))
    if original = [] ∧ simplified = [] ∧ explanation = [] then .ok none
    else .ok (some ⟨original, simplified, explanation⟩)

/-- The `sentences.map(...)` of `normalizeAnalysisResult`: JS `map` runs
the closure left to right and a thrown `TypeError` propagates at once. -/
def mapSentences : List JValue → Except (List Char) (List (Option AnalysisSentence))
  | [] => .ok []
  | s :: rest =>
    match normalizeAnalysisSentence s with
    | .error e => .error e
    | .ok o =>
      match mapSentences rest with
      | .error e => .error e
      | .ok l => .ok (o :: l)

/-- `normalizeAnalysisResult` continued: reject non-object or array-less
payloads, map the per-sentence normalization over the entries (a thrown
`TypeError` escapes), then `filter(Boolean)` keeps the surviving
sentences. -/
def normalizeAnalysisResult (payload : Option JValue) :
    Except (List Char) AnalysisResult :=
  match payload with
  | none => .ok EMPTY_ANALYSIS
  | some p =>
    if jsTruthy p = false then .ok EMPTY_ANALYSIS
    else
      match jsGet p ("sentences".data) with
      | some (.arr sentences) =>
        (mapSentences sentences).map (fun items => ⟨items.filterMap id⟩)
      | _ => .ok EMPTY_ANALYSIS

/-- `normalizeHistoricalContext` from `utils/api.ts`. -/
def normalizeHistoricalContext (payload : Option JValue) : HistoricalContextResult :=
  match payload with
  | none => EMPTY_HISTORY
  | some p =>
    if jsTruthy p = false then EMPTY_HISTORY
    else
      { overview := jsStringOrEmpty (jsGet p ("overview".data))
        recentEvents := normalizeStringArray (jsGet p ("recentEvents".data)) }

/-- Errors escaping the API layer: the distinguished `ModelJsonError`
carrying the raw reply, or an ordinary `Error` with its message. -/
inductive ApiErr where
  | modelJson (rawContent : List Char) : ApiErr
  | msg (m : List Char) : ApiErr
deriving DecidableEq

/-- The user-facing message of an API-layer error (`error.message`;
`ModelJsonError` is constructed with the fixed parse-failure text). -/
def ApiErr.message : ApiErr → List Char
  | .modelJson _ => "无法解析模型回复，请稍后再试。".data
  | .msg m => m

/-- Error text thrown by `generateAnalysis` on an empty normalized result. -/
def analysisEmptyMsg : List Char := "模型未返回解析内容，请稍后再试。".data

/-- Error text thrown by `generateHistoricalContext` on an empty result. -/
def historyEmptyMsg : List Char := "模型未返回历史背景，请稍后再试。".data

/-- The tail of `generateAnalysis` (`utils/api.ts`) after the reply has
been parsed: normalize (a `TypeError` thrown there escapes as an ordinary
`Error` whose message is surfaced), and fail when no sentence survives. -/
def generateAnalysisCore (payload : Option JValue) : Except ApiErr AnalysisResult :=
  match normalizeAnalysisResult payload with
  | .error m => .error (.msg m)
  | .ok normalized =>
    if normalized.sentences.length = 0 then .error (.msg analysisEmptyMsg)
    else .ok normalized

/-- The JSON shape of the typed fallback `EMPTY_ANALYSIS` that
`requestChatCompletion` returns for a blank reply. -/
def analysisFallbackJ : JValue := .obj [("sentences".data, .arr [])]

/-- The JSON shape of the typed fallback `EMPTY_HISTORY`. -/
def historyFallbackJ : JValue :=
  .obj [("overview".data, .str []), ("recentEvents".data, .arr [])]

/-- `generateAnalysis` (`utils/api.ts`) as a function of the text content
of a 2xx chat-completion reply: blank content yields the typed fallback,
unparsable content the `ModelJsonError`, and otherwise the parsed payload
is normalized and rejected when empty. -/
def generateAnalysis (rawContent : List Char) : Except ApiErr AnalysisResult :=
  if rawContent = [] then generateAnalysisCore (some analysisFallbackJ)
  else
    match tryParseJson rawContent with
    | none => .error (.modelJson rawContent)
    | some v => generateAnalysisCore (some v)

/-- The tail of `generateHistoricalContext` (`utils/api.ts`): normalize,
and fail exactly when both the overview and the event list are empty. -/
def generateHistoricalContextCore (payload : Option JValue) :
    Except ApiErr HistoricalContextResult :=
  let result := normalizeHistoricalContext payload
  if result.overview = [] ∧ result.recentEvents = [] then .error (.msg historyEmptyMsg)
  else .ok result

/-- `generateHistoricalContext` (`utils/api.ts`) as a function of the
reply text, mirroring `generateAnalysis`. -/
def generateHistoricalContext (rawContent : List Char) :
    Except ApiErr HistoricalContextResult :=
  if rawContent = [] then generateHistoricalContextCore (some historyFallbackJ)
  else
    match tryParseJson rawContent with
    | none => .error (.modelJson rawContent)
    | some v => generateHistoricalContextCore (some v)

/-- `countCharacters` from `utils/text.ts`:
`content.replace(/\s+/g, '').length`. -/
def countCharacters (content : List Char) : Nat :=
  (content.filter (fun c => !isJsWs c)).length

/-- Is the character in the delimiter class of `splitSentences`
(`utils/text.ts`): `[。，；、,;\n]`, i.e. the ideographic
full stop, full-width comma, full-width semicolon, enumeration comma, and
ASCII comma, semicolon and newline? -/
def isSentenceDelim (c : Char) : Bool :=
  c = '。' || c = '，' || c = '；' || c = '、' ||
    c = ',' || c = ';' || c = '\n'

/-- Split on maximal runs of a delimiter class (the `[...]+` regex of
`splitSentences`). -/
def splitOnRuns (isDelim : Char → Bool) : List Char → List (List Char)
  | [] => [[]]
  | c :: rest =>
    if isDelim c then [] :: splitOnRuns isDelim (rest.dropWhile isDelim)
    else
      match splitOnRuns isDelim rest with
      | s :: ss => (c :: s) :: ss
      | [] => [[c]]
termination_by l => l.length
decreasing_by
  · have := (List.dropWhile_sublist (l := rest) isDelim).length_le
    simp only [List.length_cons]
    omega
  · simp only [List.length_cons]
    omega

/-- `splitSentences` from `utils/text.ts`: split on runs of the clause
delimiters, trim each segment, drop empty segments. -/
def splitSentences (content : List Char) : List (List Char) :=
  if content = [] then []
  else
    ((splitOnRuns isSentenceDelim content).map trimChars).filter
      (fun s => s ≠ [])

/-- Modelled from the spec: "text split on Chinese/Latin
sentence-terminating punctuation" — the sentence-terminating marks
`。！？` and `.`/`!`/`?`, with the same trim-and-drop-empties shape as
`splitSentences`.  Used only to compare the spec reading against the
source. -/
def isSentenceTerminator (c : Char) : Bool :=
  c = '。' || c = '！' || c = '？' || c = '.' || c = '!' || c = '?'

/-- Modelled from the spec: sentence split on sentence-terminating
punctuation only. -/
def splitSentencesSpec (content : List Char) : List (List Char) :=
  if content = [] then []
  else
    ((splitOnRuns isSentenceTerminator content).map trimChars).filter
      (fun s => s ≠ [])

/-- `GenerationType` (`types.ts`). -/
inductive GenerationType where
  | analysis | history | sceneImages | imagePrompts | passageFill
  | comparativeAnalysis | authorChat | spacetimeHints
deriving DecidableEq

/-- The arithmetic of `computeImageCount` (`utils/api.ts`) applied to the
two extracted signals: sentence count and whitespace-stripped character
count. -/
def computeImageCountCore (sentenceCount characters : Nat) (type : GenerationType) : Nat :=
  let base := if type = .sceneImages then sentenceCount
    else max 4 (jsRoundDiv sentenceCount 2)
  let scaled := min 8 (max 4 (jsRoundDiv characters 80))
  let estimate := jsRoundDiv (base + scaled) 2
  max 4 (min 8 estimate)

/-- `computeImageCount` from `utils/api.ts`. -/
def computeImageCount (content : List Char) (type : GenerationType) : Nat :=
  computeImageCountCore (splitSentences content).length (countCharacters content) type

/-- The `image_url` slot of a content item or image payload:
`string | { url?: string }`. -/
inductive ImageSlot where
  | str (s : List Char) : ImageSlot
  | obj (url : Option (List Char)) : ImageSlot
deriving DecidableEq

/-- `ImagePayload` (`utils/api.ts`):
`string | { url?: string; image_url?: string | { url?: string } }`. -/
inductive ImagePayload where
  | str (s : List Char) : ImagePayload
  | obj (url : Option (List Char)) (imageUrl : Option ImageSlot) : ImagePayload
deriving DecidableEq

/-- One item of an array-valued `ChatMessageContent`. -/
inductive ContentItem where
  | text (t : List Char) : ContentItem
  | imageUrl (slot : ImageSlot) : ContentItem
deriving DecidableEq

/-- Is this item of `type: 'image_url'`? -/
def ContentItem.isImage : ContentItem → Bool
  | .imageUrl _ => true
  | .text _ => false

/-- `ChatMessageContent` (`utils/api.ts`): a plain string or an array of
text/image items. -/
inductive MsgContent where
  | str (s : List Char) : MsgContent
  | arr (items : List ContentItem) : MsgContent
deriving DecidableEq

/-- The message of a chat-completion choice; `url` models the untyped
`(message as any)?.url` fallback read by `extractImageFromResponse`. -/
structure ChatMsg where
  content : Option MsgContent
  images : Option (List ImagePayload)
  token : Option (List Char)
  url : Option (List Char)
deriving DecidableEq

/-- `ChatCompletionResponse` (`utils/api.ts`): `choices` with optional
messages. -/
structure ChatCompletionResponse where
  choices : List (Option ChatMsg)
deriving DecidableEq

/-- An HTTP round trip seen by the client: a non-2xx status with a body
text, or a parsed 2xx JSON body. -/
inductive HttpReply where
  | httpError (status : Nat) (body : List Char) : HttpReply
  | ok (data : ChatCompletionResponse) : HttpReply
deriving DecidableEq

/-- `data.choices?.[0]?.message`. -/
def responseMessage (data : ChatCompletionResponse) : Option ChatMsg :=
  data.choices.head?.bind id

/-- `extractTextContent` from `utils/api.ts`: a string content is itself;
an array keeps its text items joined by newlines; a missing content is
empty. -/
def extractTextContent (choiceContent : Option MsgContent) : List Char :=
  match choiceContent with
  | none => []
  | some (.str s) => s
  | some (.arr items) =>
    (List.intersperse ('\n' :: []) (items.filterMap (fun item =>
      match item with
      | .text t => some t
      | _ => none))).flatten

/-- Split a character list at every occurrence of a non-empty separator
(JS `String.prototype.split` with a string separator, leftmost
non-overlapping matches). -/
def splitOnSeq (sep : List Char) : List Char → List (List Char)
  | [] => [[]]
  | c :: rest =>
    if sep ≠ [] ∧ (c :: rest).take sep.length = sep then
      [] :: splitOnSeq sep ((c :: rest).drop sep.length)
    else
      match splitOnSeq sep rest with
      | s :: ss => (c :: s) :: ss
      | [] => [[c]]
termination_by l => l.length
decreasing_by
  · rename_i h
    have hlen : sep.length ≤ (c :: rest).length := by
      have := congrArg List.length h.2
      simp only [List.length_take] at this
      omega
    simp only [List.length_drop, List.length_cons]
    have hpos : 0 < sep.length := List.length_pos.mpr h.1
    omega
  · simp only [List.length_cons]
    omega

/-- Is `pat` a contiguous sublist (JS `String.prototype.includes`)? -/
def containsSeq (pat : List Char) : List Char → Bool
  | [] => pat = []
  | c :: rest => (c :: rest).take pat.length = pat || containsSeq pat rest

/-- Does the list start with the given prefix (JS `startsWith`)? -/
def startsWithSeq (pre l : List Char) : Bool :=
  l.take pre.length = pre

/-- A base64 digit of the RFC 4648 alphabet. -/
def base64Digit (n : Nat) : Char :=
  if n < 26 then Char.ofNat ('A'.toNat + n)
  else if n < 52 then Char.ofNat ('a'.toNat + (n - 26))
  else if n < 62 then Char.ofNat ('0'.toNat + (n - 52))
  else if n = 62 then '+'
  else '/'

/-- Standard base64 encoding of a byte list, with `=` padding (the
encoding performed by `btoa`). -/
def base64Encode : List Nat → List Char
  | [] => []
  | [b1] =>
    [base64Digit (b1 / 4), base64Digit (b1 % 4 * 16), '=', '=']
  | [b1, b2] =>
    [base64Digit (b1 / 4), base64Digit (b1 % 4 * 16 + b2 / 16),
     base64Digit (b2 % 16 * 4), '=']
  | b1 :: b2 :: b3 :: rest =>
    base64Digit (b1 / 4) :: base64Digit (b1 % 4 * 16 + b2 / 16) ::
      base64Digit (b2 % 16 * 4 + b3 / 64) :: base64Digit (b3 % 64) ::
      base64Encode rest

/-- Percent-decoding to bytes; non-percent characters contribute their
code point.  Together with `base64Encode` this models the
`btoa(decodeURIComponent(data))` branch of `parseDataUrl` for data whose
decoded units are single bytes (multi-byte sequences would make `btoa`
throw in JS; no claim exercises this branch). -/
def percentDecodeBytes : List Char → List Nat
  | '%' :: a :: b :: rest =>
    match hexDigitVal a, hexDigitVal b with
    | some ha, some hb => (ha * 16 + hb) :: percentDecodeBytes rest
    | _, _ => '%'.toNat :: percentDecodeBytes (a :: b :: rest)
  | c :: rest => c.toNat :: percentDecodeBytes rest
  | [] => []

/-- `parseDataUrl` from `utils/api.ts`: split off the `data:` scheme,
take meta and payload around the first comma (`split(',', 2)`), read the
MIME type before the first `;`, and keep the payload as-is when the meta
declares `;base64` (otherwise re-encode the percent-decoded payload).
Returns `(base64, mimeType)`. -/
def parseDataUrl (input : List Char) : Option (List Char × List Char) :=
  if !startsWithSeq ("data:".data) input then none
  else
    match (splitOnSeq ("data:".data) input).get? 1 with
    | none => none
    | some metaAndData =>
      if metaAndData = [] then none
      else
        let pieces := (splitOnSeq (",".data) metaAndData).take 2
        let meta := pieces.headD []
        match pieces.get? 1 with
        | none => none
        | some dat =>
          if dat = [] then none
          else
            let m0 := (splitOnSeq (";".data) meta).headD []
            let mimeType := if m0 = [] then "image/png".data else m0
            let b64 := if containsSeq (";base64".data) meta then dat
              else base64Encode (percentDecodeBytes dat)
            some (b64, mimeType)

/-- `normalizeImageUrl` from `utils/api.ts`, including the truthiness
checks on `payload.url` and `imageSlot.url`. -/
def normalizeImageUrl (payload : Option ImagePayload) : Option (List Char) :=
  match payload with
  | none => none
  | some (.str s) => some s
  | some (.obj url imageUrl) =>
    if jsStrTruthy url then url
    else
      match imageUrl with
      | some (.str s) => some s
      | some (.obj u) => if jsStrTruthy u then u else none
      | none => none

/-- The first match of `/data:image\/[^;]+;base64,[A-Za-z0-9+/=]+/` used
by the plain-text fallback of `extractImageFromResponse`. -/
def isBase64Char (c : Char) : Bool :=
  ('A' ≤ c && c ≤ 'Z') || ('a' ≤ c && c ≤ 'z') || ('0' ≤ c && c ≤ '9') ||
    c = '+' || c = '/' || c = '='

/-- Try to match the data-URL regex at the head of the input. -/
def dataUrlMatchAt (l : List Char) : Option (List Char) :=
  if startsWithSeq ("data:image/".data) l then
    let afterScheme := l.drop ("data:image/".data).length
    let mime := afterScheme.takeWhile (fun c => c ≠ ';')
    if mime = [] then none
    else
      let afterMime := afterScheme.drop mime.length
      if startsWithSeq (";base64,".data) afterMime then
        let payload := (afterMime.drop (";base64,".data).length).takeWhile isBase64Char
        if payload = [] then none
        else some ("data:image/".data ++ mime ++ ";base64,".data ++ payload)
      else none
  else none

/-- Scan for the first (leftmost) match of the data-URL regex. -/
def findDataUrl : List Char → Option (List Char)
  | [] => none
  | c :: rest =>
    match dataUrlMatchAt (c :: rest) with
    | some m => some m
    | none => findDataUrl rest

/-- `fetchImageAsBase64` from `utils/api.ts`: a data URL is decoded
locally; any other URL goes through the network, modelled by the
`netFetch` oracle, which returns `(base64, mimeType)` or the thrown
download-failure message. -/
def fetchImageAsBase64 (netFetch : List Char → Except (List Char) (List Char × List Char))
    (url : List Char) : Except (List Char) (List Char × List Char) :=
  match parseDataUrl url with
  | some r => .ok r
  | none => netFetch url

/-- Error text thrown when no image URL can be located in a response. -/
def noImageUrlMsg : List Char := "模型响应缺少图像链接，请稍后再试。".data

/-- The result of a successful image extraction: base64 data, MIME type,
and the optional continuation token of the message. -/
structure ImageOut where
  base64 : List Char
  mimeType : List Char
  token : Option (List Char)
deriving DecidableEq

/-- `extractImageFromResponse` from `utils/api.ts`: locate the image URL
through the four-step fallback chain (dedicated `images` array, inline
`image_url` content item, data URL embedded in plain-text content, untyped
`message.url`), then fetch it as base64.  An empty string counts as a
missing URL at every step, per JS truthiness. -/
def extractImageFromResponse
    (netFetch : List Char → Except (List Char) (List Char × List Char))
    (data : ChatCompletionResponse) : Except (List Char) ImageOut :=
  let message := responseMessage data
  let images := message.bind (fun m => m.images)
  let u0 := normalizeImageUrl (images.bind List.head?)
  let u1 :=
    if jsStrTruthy u0 then u0
    else
      match message.bind (fun m => m.content) with
      | some (.arr items) =>
        match items.find? ContentItem.isImage with
        | some (.imageUrl slot) =>
          normalizeImageUrl (some (match slot with
            | .str s => .str s
            | .obj u => .obj u none))
        | _ => none
      | _ => none
  let u2 :=
    if jsStrTruthy u1 then u1
    else
      match message.bind (fun m => m.content) with
      | some (.str s) => findDataUrl s
      | _ => none
  let u3 :=
    if jsStrTruthy u2 then u2
    else
      match message.bind (fun m => m.url) with
      | some u => if jsStrTruthy (some u) then some u else none
      | none => none
  if jsStrTruthy u3 then
    match fetchImageAsBase64 netFetch (u3.getD []) with
    | .ok (b64, mime) => .ok ⟨b64, mime, message.bind (fun m => m.token)⟩
    | .error e => .error e
  else .error noImageUrlMsg

/-- The `hasImage` check of `requestImageGeneration` (`utils/api.ts`):
`message?.images?.length || (Array.isArray(message?.content) &&
message.content.some(item => item.type === 'image_url'))`. -/
def hasImageResp (data : ChatCompletionResponse) : Bool :=
  let message := responseMessage data
  (match message.bind (fun m => m.images) with
   | some images => images.length ≠ 0
   | none => false) ||
  (match message.bind (fun m => m.content) with
   | some (.arr items) => items.any ContentItem.isImage
   | _ => false)

instance instDecEqExcept {ε α : Type} [DecidableEq ε] [DecidableEq α] :
    DecidableEq (Except ε α) := fun a b =>
  match a, b with
  | .error e, .error f =>
    if h : e = f then .isTrue (congrArg Except.error h)
    else .isFalse (fun hh => h (by cases hh; rfl))
  | .error _, .ok _ => .isFalse (fun hh => Except.noConfusion hh)
  | .ok _, .error _ => .isFalse (fun hh => Except.noConfusion hh)
  | .ok x, .ok y =>
    if h : x = y then .isTrue (congrArg Except.ok h)
    else .isFalse (fun hh => h (by cases hh; rfl))

/-- Transport-failure message of the image-generation request. -/
def imageGenFailMsg (status : Nat) (body : List Char) : List Char :=
  "OpenRouter scene-images 图像请求失败：".data ++ (toString status).data ++
    " ".data ++ body

/-- A trace of one `requestImageGeneration` run: how many generation
requests were issued, the artificial delays (ms) inserted before retries,
and the outcome. -/
structure GenTrace where
  requests : Nat
  delays : List Nat
  outcome : Except (List Char) ImageOut
deriving DecidableEq

/-- `requestImageGeneration` from `utils/api.ts` with the network
abstracted: `net k` is the reply to the `k`-th request of this run
(indexed by the `retryCount` argument, which starts at 0 and increments
on every retry).  A 2xx reply lacking an image is retried after a fixed
2000 ms delay while `retryCount < 2`; the final reply goes through
`extractImageFromResponse`. -/
def requestImageGeneration (net : Nat → HttpReply)
    (netFetch : List Char → Except (List Char) (List Char × List Char))
    (retryCount : Nat) : GenTrace :=
  match net retryCount with
  | .httpError status body => ⟨1, [], .error (imageGenFailMsg status body)⟩
  | .ok data =>
    if h : hasImageResp data = false ∧ retryCount < 2 then
      let rec_ := requestImageGeneration net netFetch (retryCount + 1)
      ⟨rec_.requests + 1, 2000 :: rec_.delays, rec_.outcome⟩
    else
      ⟨1, [], extractImageFromResponse netFetch data⟩
termination_by 2 - retryCount
decreasing_by
  omega

/-- `ImageAsset` (`types.ts`). -/
structure ImageAsset where
  id : List Char
  title : List Char
  prompt : List Char
  base64Data : List Char
  mimeType : List Char
  token : Option (List Char)
deriving DecidableEq

/-- Transport-failure message of the image-edit request. -/
def imageEditFailMsg (status : Nat) (body : List Char) : List Char :=
  "OpenRouter scene-images 图像编辑失败：".data ++ (toString status).data ++
    " ".data ++ body

/-- `requestImageEdit` from the live `utils/api.ts`: the continuation
token check is commented out there, so exactly one edit request is issued
regardless of `baseImage.token`; the reply goes through
`extractImageFromResponse`.  Returns the number of edit requests issued
together with the outcome. -/
def requestImageEdit
    (net : HttpReply)
    (netFetch : List Char → Except (List Char) (List Char × List Char))
    (baseImage : ImageAsset) : Nat × Except (List Char) ImageOut :=
  match net with
  | .httpError status body => (1, .error (imageEditFailMsg status body))
  | .ok data => (1, extractImageFromResponse netFetch data)

/-- Error text of the legacy missing-token check. -/
def missingTokenMsg : List Char := "当前图像不支持继续编辑。".data

/-- `requestImageEdit` from the legacy `utils/api.ts` variant, where the
check `if (!baseImage.token) throw ...` is active: a falsy token fails
before any request is issued. -/
def requestImageEditLegacy
    (net : HttpReply)
    (netFetch : List Char → Except (List Char) (List Char × List Char))
    (baseImage : ImageAsset) : Nat × Except (List Char) ImageOut :=
  if jsStrTruthy baseImage.token = false then (0, .error missingTokenMsg)
  else requestImageEdit net netFetch baseImage

/-- The asset produced by `editIllustration` (`utils/api.ts`) from the
successful edit-request result: same id and title, new bytes and MIME
type, the edit instruction appended to the prompt, and the new token when
present (`token ?? baseImage.token` is a nullish check, not truthiness). -/
def editIllustration (baseImage : ImageAsset) (editPrompt : List Char)
    (out : ImageOut) : ImageAsset :=
  { baseImage with
    base64Data := out.base64
    mimeType := out.mimeType
    prompt := baseImage.prompt ++ "\n（修改：".data ++ editPrompt ++ "）".data
    token := match out.token with
      | some t => some t
      | none => baseImage.token }

/-- `TimelineEntry` (`types.ts`). -/
structure TimelineEntry where
  year : List Char
  detail : List Char
deriving DecidableEq

/-- `ComparatorFigure` (`types.ts`). -/
structure ComparatorFigure where
  name : List Char
  hallmarkWorks : List (List Char)
  rationale : List Char
deriving DecidableEq

/-- `ComparatorRegion` (`types.ts`). -/
structure ComparatorRegion where
  region : List Char
  figures : List ComparatorFigure
deriving DecidableEq

/-- `ComparisonMatrixRow` (`types.ts`). -/
structure ComparisonMatrixRow where
  figure : List Char
  region : List Char
  keyWorks : List Char
  formGenre : List Char
  styleTechnique : List Char
  themes : List Char
  context : List Char
  influence : List Char
deriving DecidableEq

/-- `ComparativeAnalysisResult` (`types.ts`). -/
structure ComparativeAnalysisResult where
  executiveSnapshot : List Char
  timelineAnchors : List TimelineEntry
  comparatorShortlist : List ComparatorRegion
  comparisonMatrix : List ComparisonMatrixRow
deriving DecidableEq

/-- `EMPTY_COMPARATIVE` (`utils/api.ts`). -/
def EMPTY_COMPARATIVE : ComparativeAnalysisResult := ⟨[], [], [], []⟩

/-- The feature keys of the per-feature loading and error dictionaries in
`App.tsx` (`LoadingState`). -/
inductive FeatureKey where
  | analysis | history | sceneImages | passageFill | spacetime
deriving DecidableEq

/-- The App component state relevant to the verified handlers, plus a
`networkCalls` instrumentation counter that every outgoing request
increments (used to state "no network call is issued"). -/
structure AppState where
  apiKey : List Char
  author : List Char
  workTitle : List Char
  passage : List Char
  analysisResult : Option AnalysisResult
  historyResult : Option HistoricalContextResult
  sceneImages : List ImageAsset
  comparativeResult : Option ComparativeAnalysisResult
  loading : FeatureKey → Bool
  errors : FeatureKey → Option (List Char)
  editLoading : List Char → Bool
  editValues : List Char → Option (List Char)
  previousImages : List Char → Option ImageAsset
  networkCalls : Nat

/-- Error message for a missing API key (`guardInputs`, `App.tsx`). -/
def missingKeyMsg : List Char :=
  "未检测到环境变量 VITE_OPENROUTER_API_KEY，请先完成配置。".data

/-- Error message for an empty passage (`guardInputs`, `App.tsx`). -/
def missingPassageMsg : List Char := "请输入需要解析的文言文内容。".data

/-- `guardInputs` from `App.tsx`: check the API key, then the trimmed
passage, recording the corresponding error for the requesting feature
and returning whether the handler may proceed. -/
def guardInputs (s : AppState) (requiredKey : FeatureKey) : Bool × AppState :=
  if s.apiKey = [] then
    (false, { s with errors := Function.update s.errors requiredKey (some missingKeyMsg) })
  else if trimChars s.passage = [] then
    (false, { s with errors := Function.update s.errors requiredKey (some missingPassageMsg) })
  else (true, s)

/-- `handleAnalysis` from `App.tsx` as a state transition: the guard may
veto the action; otherwise the error is reset, the loading flag toggles
around one network call whose outcome (`generateAnalysis`) either
replaces the displayed result or records the error message. -/
def handleAnalysis (s : AppState) (outcome : Except ApiErr AnalysisResult) : AppState :=
  let guarded := guardInputs s .analysis
  if guarded.1 = false then guarded.2
  else
    let s1 := { guarded.2 with
      errors := Function.update (guarded.2).errors .analysis none }
    let s2 := { s1 with loading := Function.update s1.loading .analysis true }
    let s3 := { s2 with networkCalls := s2.networkCalls + 1 }
    let s4 := match outcome with
      | .ok result => { s3 with analysisResult := some result }
      | .error e => { s3 with errors := Function.update s3.errors .analysis (some e.message) }
    { s4 with loading := Function.update s4.loading .analysis false }

/-- Error message for an empty edit prompt (`handleEditImage`). -/
def missingEditPromptMsg : List Char := "请输入具体的修改提示。".data

/-- `handleEditImage` from `App.tsx`: require a non-empty trimmed edit
draft, snapshot the current asset into `previousImages`, issue the edit
call (`editIllustration`), and on success replace the asset by id and
clear the draft; on failure record the scene-images error. -/
def handleEditImage (s : AppState) (image : ImageAsset)
    (outcome : Except (List Char) ImageOut) : AppState :=
  let editPrompt := trimChars ((s.editValues image.id).getD [])
  if editPrompt = [] then
    { s with errors := Function.update s.errors .sceneImages (some missingEditPromptMsg) }
  else
    let s1 := { s with editLoading := Function.update s.editLoading image.id true }
    let s2 := { s1 with errors := Function.update s1.errors .sceneImages none }
    let s3 := { s2 with
      previousImages := Function.update s2.previousImages image.id (some image) }
    let s4 := { s3 with networkCalls := s3.networkCalls + 1 }
    let s5 := match outcome with
      | .ok out =>
        let updated := editIllustration image editPrompt out
        { s4 with
          sceneImages := s4.sceneImages.map (fun (item : ImageAsset) =>
            if item.id = image.id then updated else item)
          editValues := Function.update s4.editValues image.id (some []) }
      | .error e => { s4 with errors := Function.update s4.errors .sceneImages (some e) }
    { s5 with editLoading := Function.update s5.editLoading image.id false }

/-- `handleRevertImage` from `App.tsx`: when a pre-edit snapshot exists
for the id, restore it into the scene-image list, drop the snapshot, and
clear the edit draft. -/
def handleRevertImage (s : AppState) (imageId : List Char) : AppState :=
  match s.previousImages imageId with
  | none => s
  | some previousImage =>
    { s with
      sceneImages := s.sceneImages.map (fun (item : ImageAsset) =>
        if item.id = imageId then previousImage else item)
      previousImages := Function.update s.previousImages imageId none
      editValues := Function.update s.editValues imageId (some []) }

/-- Replace every occurrence of a character by a replacement string
(JS `String.prototype.replace` with a global single-character regex). -/
def replaceAllChar (c : Char) (rep : List Char) (l : List Char) : List Char :=
  l.flatMap (fun x => if x = c then rep else [x])

/-- `escapeHtml` from `App.tsx` on a string value: the five sequential
global replacements, ampersand first. -/
def escapeHtml (value : List Char) : List Char :=
  replaceAllChar '\'' ("&#39;".data)
    (replaceAllChar '"' ("&quot;".data)
      (replaceAllChar '>' ("&gt;".data)
        (replaceAllChar '<' ("&lt;".data)
          (replaceAllChar '&' ("&amp;".data) value))))

/-- The per-character emission that the five sequential replacements of
`escapeHtml` amount to. -/
def escapeHtmlChar (c : Char) : List Char :=
  if c = '&' then "&amp;".data
  else if c = '<' then "&lt;".data
  else if c = '>' then "&gt;".data
  else if c = '"' then "&quot;".data
  else if c = '\'' then "&#39;".data
  else [c]

/-- Does every ampersand occur exactly as the head of one of the five
entities emitted by `escapeHtml`?  (A scan: at an `&`, one of the five
entity tails must follow and the scan resumes after it.) -/
def ampersandsAreEntities : List Char → Bool
  | [] => true
  | '&' :: rest =>
    (decide (rest.take 4 = "amp;".data) && ampersandsAreEntities (rest.drop 4)) ||
    (decide (rest.take 3 = "lt;".data) && ampersandsAreEntities (rest.drop 3)) ||
    (decide (rest.take 3 = "gt;".data) && ampersandsAreEntities (rest.drop 3)) ||
    (decide (rest.take 5 = "quot;".data) && ampersandsAreEntities (rest.drop 5)) ||
    (decide (rest.take 4 = "#39;".data) && ampersandsAreEntities (rest.drop 4))
  | _ :: rest => ampersandsAreEntities rest
termination_by l => l.length
decreasing_by
  all_goals simp only [List.length_cons, List.length_drop]
  all_goals omega

/-- One row of the timeline table of `buildComparativeHtml`. -/
def timelineRowHtml (item : TimelineEntry) : List Char :=
  "<tr><td>".data ++ escapeHtml item.year ++ "</td><td>".data ++
    escapeHtml item.detail ++ "</td></tr>".data

/-- One figure entry of a comparator region of `buildComparativeHtml`. -/
def figureItemHtml (figure : ComparatorFigure) : List Char :=
  "<li>".data ++ escapeHtml figure.name ++ " — 作品：".data ++
    escapeHtml (if figure.hallmarkWorks.length > 0 then
      (List.intersperse ("；".data) figure.hallmarkWorks).flatten
    else "未注明作品".data) ++
    "。理由：".data ++
    escapeHtml (if figure.rationale ≠ [] then figure.rationale else "未提供理由".data) ++
    "</li>".data

/-- One region section of `buildComparativeHtml`. -/
def regionSectionHtml (region : ComparatorRegion) : List Char :=
  "<section><h4>".data ++ escapeHtml region.region ++ "</h4><ul>".data ++
    (region.figures.map figureItemHtml).flatten ++ "</ul></section>".data

/-- One row of the comparison matrix of `buildComparativeHtml`. -/
def matrixRowHtml (row : ComparisonMatrixRow) : List Char :=
  "<tr><td>".data ++
    escapeHtml (row.figure ++ "（".data ++ row.region ++ "）".data) ++
    "</td><td>".data ++ escapeHtml row.keyWorks ++
    "</td><td>".data ++ escapeHtml row.formGenre ++
    "</td><td>".data ++ escapeHtml row.styleTechnique ++
    "</td><td>".data ++ escapeHtml row.themes ++
    "</td><td>".data ++ escapeHtml row.context ++
    "</td><td>".data ++ escapeHtml row.influence ++
    "</td></tr>".data

/-- `buildComparativeHtml` from `App.tsx`.  The template literal of the
source spells `\\n`, i.e. a literal backslash-n pair, reproduced here. -/
def buildComparativeHtml (result : ComparativeAnalysisResult) : List Char :=
  "\\n<section>\\n  <h2>构建时空比较分析</h2>\\n  <h3>总览</h3>\\n  <p>".data ++
    escapeHtml result.executiveSnapshot ++
    "</p>\\n  <h3>时间锚点</h3>\\n  <table border=\"1\" cellpadding=\"6\" cellspacing=\"0\">\\n    <thead><tr><th>年份</th><th>事件 / 人物 / 作品（地区）</th></tr></thead>\\n    <tbody>".data ++
    (result.timelineAnchors.map timelineRowHtml).flatten ++
    "</tbody>\\n  </table>\\n  <h3>对比名单</h3>\\n  ".data ++
    (result.comparatorShortlist.map regionSectionHtml).flatten ++
    "\\n  <h3>比较矩阵</h3>\\n  <table border=\"1\" cellpadding=\"6\" cellspacing=\"0\">\\n    <thead><tr><th>人物（地区）</th><th>代表作品</th><th>体裁</th><th>风格技法</th><th>主题</th><th>历史语境</th><th>影响 / 传播</th></tr></thead>\\n    <tbody>".data ++
    (result.comparisonMatrix.map matrixRowHtml).flatten ++
    "</tbody>\\n  </table>\\n</section>".data

/-- One sentence row of the `analysisHtml` template of `App.tsx`. -/
def analysisRowHtml (sentence : AnalysisSentence) : List Char :=
  "\n        <tr>\n          <td>".data ++ escapeHtml sentence.original ++
    "</td>\n          <td>".data ++ escapeHtml sentence.simplified ++
    "</td>\n          <td><ul>".data ++
    (sentence.explanation.map (fun item =>
      "<li>".data ++ escapeHtml item ++ "</li>".data)).flatten ++
    "</ul></td>\n        </tr>".data

/-- The `analysisHtml` fragment of `App.tsx` for a present result. -/
def buildAnalysisHtml (result : AnalysisResult) : List Char :=
  "\n<section>\n  <h2>逐句翻译与解析</h2>\n  <table border=\"1\" cellpadding=\"8\" cellspacing=\"0\">\n    <thead>\n      <tr>\n        <th>原文</th>\n        <th>现代汉语翻译</th>\n        <th>关键词与解析</th>\n      </tr>\n    </thead>\n    <tbody>\n      ".data ++
    (result.sentences.map analysisRowHtml).flatten ++
    "\n    </tbody>\n  </table>\n</section>".data

/-- The `historyHtml` fragment of `App.tsx` for a present result. -/
def buildHistoryHtml (result : HistoricalContextResult) : List Char :=
  "\n<section>\n  <h2>历史背景分析</h2>\n  <p>".data ++
    escapeHtml result.overview ++
    "</p>\n  <h3>成稿前 1-3 年关键事件</h3>\n  <ul>".data ++
    (result.recentEvents.map (fun item =>
      "<li>".data ++ escapeHtml item ++ "</li>".data)).flatten ++
    "</ul>\n</section>".data

/-- Count of `<` characters: a fresh tag can only start at one of these. -/
def countLt (l : List Char) : Nat :=
  l.count '<'

/-- Join string parts with a separator (the delimiter-joined strings of
the array-field normalization property). -/
def joinSep (sep : List Char) : List (List Char) → List Char
  | [] => []
  | [p] => p
  | p :: ps => p ++ sep ++ joinSep sep ps

/-- Trim a segment and drop it when the trim is empty (the `map`/`filter`
tail of `normalizeStringArray` in `filterMap` form). -/
def trimNE (x : List Char) : Option (List Char) :=
  if trimChars x = [] then none else some (trimChars x)

/-!  Helper lemmas. -/

theorem dropWhile_append_head (p : Char → Bool) (l₁ l₂ : List Char) (c : Char)
    (hc : l₂.head? = some c) (hpc : p c = false) :
    List.dropWhile p (l₁ ++ l₂) = List.dropWhile p l₁ ++ l₂ := by
  induction l₁ with
  | nil =>
    cases l₂ with
    | nil => simp at hc
    | cons d t =>
      simp only [List.head?_cons, Option.some.injEq] at hc
      subst hc
      simp [List.dropWhile_cons, hpc]
  | cons a l₁ ih =>
    simp only [List.cons_append, List.dropWhile_cons]
    by_cases ha : p a
    · simp [ha, ih]
    · simp [ha]

theorem dropWhile_eq_nil_of_all (p : Char → Bool) (l : List Char)
    (h : ∀ a ∈ l, p a) : List.dropWhile p l = [] := by
  induction l with
  | nil => rfl
  | cons a t ih =>
    have ha : p a := h a (by simp)
    simp only [List.dropWhile_cons, ha, if_true]
    exact ih (fun b hb => h b (by simp [hb]))

theorem mem_of_mem_dropWhile {p : Char → Bool} {l : List Char} {a : Char}
    (h : a ∈ List.dropWhile p l) : a ∈ l :=
  (List.dropWhile_sublist p).subset h

theorem jsonCandidate_isolates (pre obj post : List Char)
    (hpre : '\x7b' ∉ pre) (hpost : '\x7d' ∉ post)
    (hhead : obj.head? = some '\x7b') (hlast : obj.getLast? = some '\x7d') :
    jsonCandidate (pre ++ obj ++ post) = obj := by
  obtain ⟨objt, rfl⟩ : ∃ t, obj = '\x7b' :: t := by
    cases obj with
    | nil => simp at hhead
    | cons c t =>
      simp only [List.head?_cons, Option.some.injEq] at hhead
      exact ⟨t, by rw [hhead]⟩
  have hrevhead : (('\x7b' :: objt).reverse).head? = some '\x7d' := by
    rw [List.head?_reverse]
    exact hlast
  -- trimming strips whitespace only outside the brace span
  have h1 : List.dropWhile isJsWs (pre ++ (('\x7b' :: objt) ++ post)) =
      List.dropWhile isJsWs pre ++ (('\x7b' :: objt) ++ post) :=
    dropWhile_append_head _ _ _ '\x7b' (by simp) (by decide)
  have h2 : List.dropWhile isJsWs
        ((post.reverse) ++ ((('\x7b' :: objt).reverse) ++ (List.dropWhile isJsWs pre).reverse)) =
      List.dropWhile isJsWs post.reverse ++
        ((('\x7b' :: objt).reverse) ++ (List.dropWhile isJsWs pre).reverse) := by
    apply dropWhile_append_head _ _ _ '\x7d'
    · cases hrev : ('\x7b' :: objt).reverse with
      | nil => simp at hrev
      | cons c t =>
        rw [hrev] at hrevhead
        simp only [List.head?_cons, Option.some.injEq] at hrevhead
        simp [hrevhead]
    · decide
  have htrim : trimChars (pre ++ ('\x7b' :: objt) ++ post) =
      List.dropWhile isJsWs pre ++ (('\x7b' :: objt) ++ (List.dropWhile isJsWs post.reverse).reverse) := by
    unfold trimChars
    rw [List.append_assoc, h1]
    rw [List.reverse_append, List.reverse_append, List.append_assoc, h2]
    simp
  unfold jsonCandidate
  simp only [htrim]
  have hpre1 : List.dropWhile (fun c => c ≠ '\x7b') (List.dropWhile isJsWs pre) = [] := by
    apply dropWhile_eq_nil_of_all
    intro a ha
    have : a ∈ pre := mem_of_mem_dropWhile ha
    simp only [ne_eq, decide_eq_true_eq]
    intro hq
    exact hpre (hq ▸ this)
  have hrest : List.dropWhile (fun c => c ≠ '\x7b')
      (List.dropWhile isJsWs pre ++ (('\x7b' :: objt) ++ (List.dropWhile isJsWs post.reverse).reverse)) =
      ('\x7b' :: objt) ++ (List.dropWhile isJsWs post.reverse).reverse := by
    rw [dropWhile_append_head _ _ _ '\x7b' (by simp) (by decide), hpre1]
    simp
  simp only [hrest]
  have hpost1 : List.dropWhile (fun c => c ≠ '\x7d')
      (List.dropWhile isJsWs post.reverse) = [] := by
    apply dropWhile_eq_nil_of_all
    intro a ha
    have : a ∈ post := by
      have h3 : a ∈ post.reverse := mem_of_mem_dropWhile ha
      simpa using h3
    simp only [ne_eq, decide_eq_true_eq]
    intro hq
    exact hpost (hq ▸ this)
  simp only [List.reverse_append, List.reverse_reverse, List.reverse_cons]
  rw [show ('\x7b' :: objt).reverse = objt.reverse ++ ['\x7b'] from by simp] at hrevhead
  rw [dropWhile_append_head _ (List.dropWhile isJsWs post.reverse) _ '\x7d' hrevhead (by decide),
    hpost1]
  simp

/-- C1: the extractor of `tryParseJson` takes the span from the first
`{` to the last `}` of the trimmed reply; whenever the prose before a
well-formed JSON object contains no `{` and the prose after it contains
no `}`, it isolates and strictly parses exactly that object. -/
theorem tryParseJson_isolated_object (pre obj post : List Char) (v : JValue)
    (hpre : '\x7b' ∉ pre) (hpost : '\x7d' ∉ post)
    (hhead : obj.head? = some '\x7b') (hlast : obj.getLast? = some '\x7d')
    (hparse : parseJson obj = some v) :
    jsonCandidate (pre ++ obj ++ post) = obj ∧
      tryParseJson (pre ++ obj ++ post) = some v := by
  have hiso := jsonCandidate_isolates pre obj post hpre hpost hhead hlast
  refine ⟨hiso, ?_⟩
  unfold tryParseJson
  rw [hiso]
  exact hparse

/-- C1 witness: a reply with leading and trailing prose around
`{"a":1}` parses to exactly that object. -/
theorem tryParseJson_isolated_object_witness :
    jsonCandidate ("noise ".data ++ "\x7b\"a\":1\x7d".data ++ " tail".data) =
        "\x7b\"a\":1\x7d".data ∧
      tryParseJson ("noise ".data ++ "\x7b\"a\":1\x7d".data ++ " tail".data) =
        some (.obj [("a".data, .num 1)]) :=
  tryParseJson_isolated_object _ _ _ _
    (by decide) (by decide) (by decide) (by decide) (by rfl)

/-- C1 counterexample: the reply `{"a":1} x}` contains the single
well-formed object `{"a":1}` followed by prose containing `}`, yet the
greedy extraction spans to the final `}` and the parse fails. -/
theorem tryParseJson_trailing_brace_counterexample :
    (parseJson ("\x7b\"a\":1\x7d".data)).isSome = true ∧
      jsonCandidate ("\x7b\"a\":1\x7d x\x7d".data) ≠ "\x7b\"a\":1\x7d".data ∧
      tryParseJson ("\x7b\"a\":1\x7d x\x7d".data) = none := by
  refine ⟨by rfl, by decide, by rfl⟩

/-- C4: `generateHistoricalContext` rejects a normalized reply exactly
when both the overview and the event list are empty; otherwise it
returns the normalized result unchanged. -/
theorem generateHistoricalContext_empty_policy :
    ∀ payload : Option JValue,
      ((generateHistoricalContextCore payload).isOk = false ↔
        (normalizeHistoricalContext payload).overview = [] ∧
          (normalizeHistoricalContext payload).recentEvents = []) ∧
      (¬((normalizeHistoricalContext payload).overview = [] ∧
          (normalizeHistoricalContext payload).recentEvents = []) →
        generateHistoricalContextCore payload =
          .ok (normalizeHistoricalContext payload)) := by
  intro payload
  unfold generateHistoricalContextCore
  by_cases h : (normalizeHistoricalContext payload).overview = [] ∧
      (normalizeHistoricalContext payload).recentEvents = []
  · simp [h, Except.isOk, Except.toBool]
  · simp [h, Except.isOk, Except.toBool]

/-- C4 witness: a reply with a non-empty overview is returned as
normalized, and the all-empty fallback shape is rejected. -/
theorem generateHistoricalContext_empty_policy_witness :
    generateHistoricalContextCore
        (some (.obj [("overview".data, .str "生平".data)])) =
      .ok (normalizeHistoricalContext
        (some (.obj [("overview".data, .str "生平".data)]))) ∧
      ((generateHistoricalContextCore (some historyFallbackJ)).isOk = false ↔
        (normalizeHistoricalContext (some historyFallbackJ)).overview = [] ∧
          (normalizeHistoricalContext (some historyFallbackJ)).recentEvents = []) :=
  ⟨(generateHistoricalContext_empty_policy
      (some (.obj [("overview".data, .str "生平".data)]))).2 (by decide),
    (generateHistoricalContext_empty_policy (some historyFallbackJ)).1⟩

/-- A per-sentence normalization that throws does so with the fixed
`TypeError` text: only a `null` entry throws, always with that message. -/
theorem normalizeAnalysisSentence_error_msg (s : JValue) (e : List Char)
    (h : normalizeAnalysisSentence s = .error e) : e = typeErrorNullOriginalMsg := by
  cases s
  case null =>
    have h2 : (Except.error typeErrorNullOriginalMsg :
        Except (List Char) (Option AnalysisSentence)) = .error e := h
    exact (Except.error.inj h2).symm
  all_goals
    unfold normalizeAnalysisSentence at h
    dsimp only at h
    split at h <;> exact Except.noConfusion h

/-- `mapSentences` when the leading entry throws. -/
theorem mapSentences_cons_error (a : JValue) (e : List Char) (rest : List JValue)
    (ha : normalizeAnalysisSentence a = .error e) :
    mapSentences (a :: rest) = .error e := by
  unfold mapSentences
  rw [ha]

/-- `mapSentences` when the leading entry returns but the rest throws. -/
theorem mapSentences_cons_ok_error (a : JValue) (o : Option AnalysisSentence)
    (rest : List JValue) (e : List Char)
    (ha : normalizeAnalysisSentence a = .ok o)
    (hr : mapSentences rest = .error e) :
    mapSentences (a :: rest) = .error e := by
  unfold mapSentences
  rw [ha, hr]

/-- `mapSentences` when the leading entry and the rest both return. -/
theorem mapSentences_cons_ok_ok (a : JValue) (o : Option AnalysisSentence)
    (rest : List JValue) (l : List (Option AnalysisSentence))
    (ha : normalizeAnalysisSentence a = .ok o)
    (hr : mapSentences rest = .ok l) :
    mapSentences (a :: rest) = .ok (o :: l) := by
  unfold mapSentences
  rw [ha, hr]

/-- Inserting an entry that normalizes to a drop anywhere in the array
leaves the outcome of the `map` unchanged up to the later
`filter(Boolean)`: the same `TypeError` escapes, or the same sentences
survive. -/
theorem mapSentences_mid_none (s : JValue)
    (hs : normalizeAnalysisSentence s = .ok none) (pre suf : List JValue) :
    (∃ e, mapSentences (pre ++ s :: suf) = .error e ∧
        mapSentences (pre ++ suf) = .error e) ∨
    (∃ l1 l2, mapSentences (pre ++ s :: suf) = .ok l1 ∧
        mapSentences (pre ++ suf) = .ok l2 ∧
        l1.filterMap id = l2.filterMap id) := by
  induction pre with
  | nil =>
    simp only [List.nil_append]
    cases h : mapSentences suf with
    | error e =>
      exact Or.inl ⟨e, mapSentences_cons_ok_error s none suf e hs h, rfl⟩
    | ok l =>
      exact Or.inr ⟨none :: l, l, mapSentences_cons_ok_ok s none suf l hs h, rfl, rfl⟩
  | cons a pre ih =>
    simp only [List.cons_append]
    cases ha : normalizeAnalysisSentence a with
    | error e =>
      exact Or.inl ⟨e, mapSentences_cons_error a e _ ha,
        mapSentences_cons_error a e _ ha⟩
    | ok o =>
      rcases ih with ⟨e, h1, h2⟩ | ⟨l1, l2, h1, h2, hf⟩
      · exact Or.inl ⟨e, mapSentences_cons_ok_error a o _ e ha h1,
          mapSentences_cons_ok_error a o _ e ha h2⟩
      · refine Or.inr ⟨o :: l1, o :: l2, mapSentences_cons_ok_ok a o _ l1 ha h1,
          mapSentences_cons_ok_ok a o _ l2 ha h2, ?_⟩
        cases o with
        | none => exact hf
        | some b => exact congrArg (fun x => b :: x) hf

/-- An array containing a `null` entry anywhere makes the `map` throw
the `TypeError` (at the first `null`, always with the same message). -/
theorem mapSentences_mid_null (pre suf : List JValue) :
    mapSentences (pre ++ JValue.null :: suf) = .error typeErrorNullOriginalMsg := by
  induction pre with
  | nil =>
    simp only [List.nil_append]
    exact mapSentences_cons_error JValue.null typeErrorNullOriginalMsg suf rfl
  | cons a pre ih =>
    simp only [List.cons_append]
    cases ha : normalizeAnalysisSentence a with
    | error e =>
      rw [mapSentences_cons_error a e _ ha,
        normalizeAnalysisSentence_error_msg a e ha]
    | ok o => exact mapSentences_cons_ok_error a o _ _ ha ih

/-- C3: the scenario reply whose embedded JSON is `{"sentences":[]}`
surrounded by noise produces the "no content" error, not an empty
success; any payload normalizing to zero sentences errors; a non-`null`
sentence entry whose three normalized fields are all empty is dropped
(leaving the thrown error or the surviving sentences unchanged); and a
`null` entry instead throws the `TypeError` raised when reading
`sentence.original` of `null`. -/
theorem generateAnalysis_empty_policy :
    (generateAnalysis (extractTextContent
        (some (.str "noise \x7b\"sentences\":[]\x7d noise".data))) =
      .error (.msg analysisEmptyMsg)) ∧
    (∀ payload : Option JValue,
      normalizeAnalysisResult payload = .ok ⟨[]⟩ →
      generateAnalysisCore payload = .error (.msg analysisEmptyMsg)) ∧
    (∀ (pre suf : List JValue) (s : JValue),
      s ≠ .null →
      jsStringOrEmpty (jsGet s ("original".data)) = [] →
      jsStringOrEmpty (jsGet s ("simplified".data)) = [] →
      normalizeStringArray (jsGet s ("explanation".data)) = [] →
      normalizeAnalysisResult
          (some (.obj [("sentences".data, .arr (pre ++ s :: suf))])) =
        normalizeAnalysisResult
          (some (.obj [("sentences".data, .arr (pre ++ suf))]))) ∧
    (∀ pre suf : List JValue,
      normalizeAnalysisResult
          (some (.obj [("sentences".data, .arr (pre ++ .null :: suf))])) =
        .error typeErrorNullOriginalMsg) := by
  have hred : ∀ L : List JValue,
      normalizeAnalysisResult (some (.obj [("sentences".data, .arr L)])) =
        (mapSentences L).map (fun items => (⟨items.filterMap id⟩ : AnalysisResult)) :=
    fun L => rfl
  refine ⟨by rfl, ?_, ?_, ?_⟩
  · intro payload h
    unfold generateAnalysisCore
    rw [h]
    rfl
  · intro pre suf s hnull h1 h2 h3
    have hfs : normalizeAnalysisSentence s = .ok none := by
      cases s
      case null => exact absurd rfl hnull
      all_goals
        unfold normalizeAnalysisSentence
        simp [h1, h2, h3]
    rcases mapSentences_mid_none s hfs pre suf with ⟨e, hA, hB⟩ | ⟨l1, l2, hA, hB, hf⟩
    · rw [hred, hred, hA, hB]
    · rw [hred, hred, hA, hB]
      exact congrArg (fun x => (Except.ok ⟨x⟩ :
        Except (List Char) AnalysisResult)) hf
  · intro pre suf
    rw [hred, mapSentences_mid_null pre suf]
    rfl

/-- C3 witness: the empty-sentence payload errors, a concrete all-empty
non-`null` sentence entry is dropped during normalization, and a `null`
entry throws the `TypeError`. -/
theorem generateAnalysis_empty_policy_witness :
    generateAnalysisCore (some (.obj [("sentences".data, .arr [])])) =
        .error (.msg analysisEmptyMsg) ∧
      normalizeAnalysisResult
          (some (.obj [("sentences".data, .arr ([] ++ JValue.obj [] :: []))])) =
        normalizeAnalysisResult
          (some (.obj [("sentences".data, .arr ([] ++ []))])) ∧
      normalizeAnalysisResult
          (some (.obj [("sentences".data, .arr ([] ++ JValue.null :: []))])) =
        .error typeErrorNullOriginalMsg :=
  ⟨generateAnalysis_empty_policy.2.1 _ (by rfl),
    generateAnalysis_empty_policy.2.2.1 [] [] (JValue.obj [])
      (by intro h; exact JValue.noConfusion h) (by rfl) (by rfl) (by rfl),
    generateAnalysis_empty_policy.2.2.2 [] []⟩

/-- C5: with a present API key and an empty trimmed passage the analysis
handler records the missing-passage error and changes nothing else; with
a missing key it records the missing-key error (the key is checked
first); and on any validation failure no network call is issued and the
displayed analysis result and loading flags are untouched. -/
theorem handleAnalysis_validation :
    ∀ (s : AppState) (o : Except ApiErr AnalysisResult),
      (s.apiKey ≠ [] → trimChars s.passage = [] →
        handleAnalysis s o =
          { s with errors := Function.update s.errors .analysis (some missingPassageMsg) }) ∧
      (s.apiKey = [] →
        handleAnalysis s o =
          { s with errors := Function.update s.errors .analysis (some missingKeyMsg) }) ∧
      ((s.apiKey = [] ∨ trimChars s.passage = []) →
        (handleAnalysis s o).networkCalls = s.networkCalls ∧
        (handleAnalysis s o).analysisResult = s.analysisResult ∧
        (handleAnalysis s o).loading = s.loading) := by
  intro s o
  refine ⟨?_, ?_, ?_⟩
  · intro hkey hpass
    unfold handleAnalysis guardInputs
    simp [hkey, hpass]
  · intro hkey
    unfold handleAnalysis guardInputs
    simp [hkey]
  · intro hval
    rcases hval with hkey | hpass
    · unfold handleAnalysis guardInputs
      simp [hkey]
    · by_cases hkey : s.apiKey = []
      · unfold handleAnalysis guardInputs
        simp [hkey]
      · unfold handleAnalysis guardInputs
        simp [hkey, hpass]

/-- C5 witness: a concrete state with a key and a whitespace passage gets
the missing-passage error with no network call and unchanged result. -/
theorem handleAnalysis_validation_witness :
    (handleAnalysis
        { apiKey := "k".data, author := [], workTitle := [], passage := "  ".data
          analysisResult := none, historyResult := none, sceneImages := []
          comparativeResult := none, loading := fun _ => false
          errors := fun _ => none, editLoading := fun _ => false
          editValues := fun _ => none, previousImages := fun _ => none
          networkCalls := 0 } (.error (.msg []))).networkCalls = 0 ∧
      (handleAnalysis
        { apiKey := "k".data, author := [], workTitle := [], passage := "  ".data
          analysisResult := none, historyResult := none, sceneImages := []
          comparativeResult := none, loading := fun _ => false
          errors := fun _ => none, editLoading := fun _ => false
          editValues := fun _ => none, previousImages := fun _ => none
          networkCalls := 0 } (.error (.msg []))).errors .analysis =
        some missingPassageMsg := by
  have h := handleAnalysis_validation
    { apiKey := "k".data, author := [], workTitle := [], passage := "  ".data
      analysisResult := none, historyResult := none, sceneImages := []
      comparativeResult := none, loading := fun _ => false
      errors := fun _ => none, editLoading := fun _ => false
      editValues := fun _ => none, previousImages := fun _ => none
      networkCalls := 0 } (.error (.msg []))
  have h1 := h.1 (by decide) (by decide)
  have h3 := (h.2.2 (Or.inr (by decide))).1
  refine ⟨h3, ?_⟩
  rw [h1]
  simp [Function.update_same]

/-- C6: a successful edit followed by a revert restores the pre-edit
scene-image list (and so the pre-edit base64 data, MIME type and prompt
of that image id), clears the edit-prompt draft of that id and drops the
snapshot; the edit itself keeps the asset id and appends the edit
instruction to the prompt. -/
theorem edit_then_revert_restores :
    ∀ (s : AppState) (image : ImageAsset) (out : ImageOut),
      trimChars ((s.editValues image.id).getD []) ≠ [] →
      (∀ a ∈ s.sceneImages, a.id = image.id → a = image) →
      ((handleRevertImage (handleEditImage s image (.ok out)) image.id).sceneImages =
          s.sceneImages ∧
        (handleRevertImage (handleEditImage s image (.ok out)) image.id).editValues
            image.id = some [] ∧
        (handleRevertImage (handleEditImage s image (.ok out)) image.id).previousImages
            image.id = none) ∧
      ((editIllustration image (trimChars ((s.editValues image.id).getD [])) out).id =
          image.id ∧
        (editIllustration image (trimChars ((s.editValues image.id).getD [])) out).prompt =
          image.prompt ++ "\n（修改：".data ++
            trimChars ((s.editValues image.id).getD []) ++ "）".data) := by
  intro s image out hdraft hmem
  have hedit : handleEditImage s image (.ok out) =
      { s with
        editLoading := Function.update
          (Function.update s.editLoading image.id true) image.id false
        errors := Function.update s.errors .sceneImages none
        previousImages := Function.update s.previousImages image.id (some image)
        networkCalls := s.networkCalls + 1
        sceneImages := s.sceneImages.map (fun item =>
          if item.id = image.id then
            editIllustration image (trimChars ((s.editValues image.id).getD [])) out
          else item)
        editValues := Function.update s.editValues image.id (some []) } := by
    unfold handleEditImage
    simp [hdraft]
  rw [hedit]
  unfold handleRevertImage
  simp only [Function.update_same]
  refine ⟨⟨?_, ?_, ?_⟩, rfl, rfl⟩
  · simp only [List.map_map]
    have : ∀ a ∈ s.sceneImages,
        ((fun item => if item.id = image.id then image else item) ∘
          (fun item => if item.id = image.id then
            editIllustration image (trimChars ((s.editValues image.id).getD [])) out
          else item)) a = id a := by
      intro a ha
      by_cases hid : a.id = image.id
      · have hupd : (editIllustration image
            (trimChars ((s.editValues image.id).getD [])) out).id = image.id := rfl
        simp only [Function.comp_apply, if_pos hid, if_pos hupd, id_eq]
        exact (hmem a ha hid).symm
      · simp only [Function.comp_apply, if_neg hid, id_eq]
    rw [List.map_congr_left this, List.map_id]
  · simp [Function.update_same]
  · simp [Function.update_same]

/-- C6 witness: a concrete one-image state edited and reverted comes back
byte-identical with the draft cleared and the snapshot dropped. -/
theorem edit_then_revert_restores_witness :
    ((handleRevertImage (handleEditImage
        { apiKey := "k".data, author := [], workTitle := [], passage := "文".data
          analysisResult := none, historyResult := none
          sceneImages := [⟨"scene-images-1".data, "题".data, "提示".data,
            "QUJD".data, "image/png".data, some "tok".data⟩]
          comparativeResult := none, loading := fun _ => false
          errors := fun _ => none, editLoading := fun _ => false
          editValues := fun i => if i = "scene-images-1".data then some "改".data else none
          previousImages := fun _ => none, networkCalls := 0 }
        ⟨"scene-images-1".data, "题".data, "提示".data,
          "QUJD".data, "image/png".data, some "tok".data⟩
        (.ok ⟨"REVG".data, "image/jpeg".data, none⟩)) "scene-images-1".data).sceneImages =
      [⟨"scene-images-1".data, "题".data, "提示".data,
        "QUJD".data, "image/png".data, some "tok".data⟩]) := by
  have h := edit_then_revert_restores
    { apiKey := "k".data, author := [], workTitle := [], passage := "文".data
      analysisResult := none, historyResult := none
      sceneImages := [⟨"scene-images-1".data, "题".data, "提示".data,
        "QUJD".data, "image/png".data, some "tok".data⟩]
      comparativeResult := none, loading := fun _ => false
      errors := fun _ => none, editLoading := fun _ => false
      editValues := fun i => if i = "scene-images-1".data then some "改".data else none
      previousImages := fun _ => none, networkCalls := 0 }
    ⟨"scene-images-1".data, "题".data, "提示".data,
      "QUJD".data, "image/png".data, some "tok".data⟩
    ⟨"REVG".data, "image/jpeg".data, none⟩
    (by decide) (by decide)
  exact h.1.1

/-- C7 counterexample: in the live `requestImageEdit` the token check is
commented out, so an edit on an asset with no continuation token still
issues one edit request and can succeed, instead of failing with the
resource error before any request. -/
theorem requestImageEdit_missing_token_counterexample :
    jsStrTruthy (ImageAsset.token ⟨"scene-images-1".data, "题".data, "提示".data,
        "QUJD".data, "image/png".data, none⟩) = false ∧
      requestImageEdit
        (.ok ⟨[some ⟨none, some [.str "https://img.example/1.png".data], none, none⟩]⟩)
        (fun _ => .ok ("REVG".data, "image/png".data))
        ⟨"scene-images-1".data, "题".data, "提示".data,
          "QUJD".data, "image/png".data, none⟩ =
        (1, .ok ⟨"REVG".data, "image/png".data, none⟩) := by
  exact ⟨by rfl, by rfl⟩

/-- C7 (amended): in the legacy variant of `requestImageEdit` an absent
(falsy) continuation token fails with the resource error before any
request is issued; and an edit failure is recorded under the
scene-images key only, leaving every other feature's results, errors and
loading flags untouched. -/
theorem requestImageEdit_token_policy :
    (∀ (net : HttpReply)
        (nf : List Char → Except (List Char) (List Char × List Char))
        (asset : ImageAsset),
      jsStrTruthy asset.token = false →
      requestImageEditLegacy net nf asset = (0, .error missingTokenMsg)) ∧
    (∀ (s : AppState) (image : ImageAsset) (e : List Char),
      (handleEditImage s image (.error e)).analysisResult = s.analysisResult ∧
      (handleEditImage s image (.error e)).historyResult = s.historyResult ∧
      (handleEditImage s image (.error e)).comparativeResult = s.comparativeResult ∧
      (handleEditImage s image (.error e)).sceneImages = s.sceneImages ∧
      ∀ k, k ≠ FeatureKey.sceneImages →
        (handleEditImage s image (.error e)).errors k = s.errors k ∧
        (handleEditImage s image (.error e)).loading k = s.loading k) := by
  constructor
  · intro net nf asset htok
    unfold requestImageEditLegacy
    rw [htok]
    rfl
  · intro s image e
    unfold handleEditImage
    by_cases hdraft : trimChars ((s.editValues image.id).getD []) = []
    · simp only [hdraft, if_pos rfl]
      refine ⟨by trivial, by trivial, by trivial, by trivial, ?_⟩
      intro k hk
      exact ⟨Function.update_noteq hk _ _, by trivial⟩
    · simp only [if_neg hdraft]
      refine ⟨by trivial, by trivial, by trivial, by trivial, ?_⟩
      intro k hk
      refine ⟨?_, by trivial⟩
      show Function.update (Function.update s.errors .sceneImages none)
          .sceneImages (some e) k = s.errors k
      rw [Function.update_noteq hk, Function.update_noteq hk]

/-- C7 witness: the legacy check fires on a concrete token-less asset,
and a failing edit leaves the analysis feature untouched. -/
theorem requestImageEdit_token_policy_witness :
    requestImageEditLegacy
        (.ok ⟨[]⟩) (fun _ => .error [])
        ⟨"scene-images-1".data, "题".data, "提示".data,
          "QUJD".data, "image/png".data, none⟩ =
        (0, .error missingTokenMsg) ∧
      (handleEditImage
        { apiKey := "k".data, author := [], workTitle := [], passage := "文".data
          analysisResult := none, historyResult := none, sceneImages := []
          comparativeResult := none, loading := fun _ => false
          errors := fun _ => none, editLoading := fun _ => false
          editValues := fun _ => none, previousImages := fun _ => none
          networkCalls := 0 }
        ⟨"scene-images-1".data, "题".data, "提示".data,
          "QUJD".data, "image/png".data, none⟩
        (.error "edit failed".data)).errors .analysis = none :=
  ⟨requestImageEdit_token_policy.1 _ _ _ (by rfl),
    by
      have h := (requestImageEdit_token_policy.2
        { apiKey := "k".data, author := [], workTitle := [], passage := "文".data
          analysisResult := none, historyResult := none, sceneImages := []
          comparativeResult := none, loading := fun _ => false
          errors := fun _ => none, editLoading := fun _ => false
          editValues := fun _ => none, previousImages := fun _ => none
          networkCalls := 0 }
        ⟨"scene-images-1".data, "题".data, "提示".data,
          "QUJD".data, "image/png".data, none⟩
        "edit failed".data).2.2.2.2 .analysis (by decide)
      exact h.1⟩

theorem requestImageGeneration_invariant
    (net : Nat → HttpReply)
    (nf : List Char → Except (List Char) (List Char × List Char)) :
    ∀ (n r : Nat), 2 - r ≤ n →
      (requestImageGeneration net nf r).requests ≤ (2 - r) + 1 ∧
        ∀ d ∈ (requestImageGeneration net nf r).delays, d = 2000 := by
  intro n
  induction n with
  | zero =>
    intro r hr
    rw [requestImageGeneration]
    cases hnr : net r with
    | httpError status body =>
      refine ⟨?_, ?_⟩
      · show (1 : Nat) ≤ (2 - r) + 1
        omega
      · intro d hd
        simp at hd
    | ok data =>
      simp only []
      rw [dif_neg (by omega)]
      refine ⟨?_, ?_⟩
      · show (1 : Nat) ≤ (2 - r) + 1
        omega
      · intro d hd
        simp at hd
  | succ n ih =>
    intro r hr
    rw [requestImageGeneration]
    cases hnr : net r with
    | httpError status body =>
      refine ⟨?_, ?_⟩
      · show (1 : Nat) ≤ (2 - r) + 1
        omega
      · intro d hd
        simp at hd
    | ok data =>
      simp only []
      by_cases hc : hasImageResp data = false ∧ r < 2
      · rw [dif_pos hc]
        have hrec := ih (r + 1) (by omega)
        refine ⟨?_, ?_⟩
        · show (requestImageGeneration net nf (r + 1)).requests + 1 ≤ (2 - r) + 1
          have := hrec.1
          omega
        · intro d hd
          have hd2 : d ∈ 2000 :: (requestImageGeneration net nf (r + 1)).delays := hd
          simp only [List.mem_cons] at hd2
          rcases hd2 with rfl | hd2
          · rfl
          · exact hrec.2 d hd2
      · rw [dif_neg hc]
        refine ⟨?_, ?_⟩
        · show (1 : Nat) ≤ (2 - r) + 1
          omega
        · intro d hd
          simp at hd

/-- C2: the image-generation call issues at most 3 requests per run, every
inserted retry delay is the fixed 2000 ms, and in the run whose first two
2xx replies carry no image while the third does, exactly 3 requests are
issued with two 2000 ms delays and the third reply's image is the one
extracted and returned. -/
theorem requestImageGeneration_retry_policy :
    ∀ (net : Nat → HttpReply)
      (nf : List Char → Except (List Char) (List Char × List Char)),
      ((requestImageGeneration net nf 0).requests ≤ 3) ∧
      (∀ d ∈ (requestImageGeneration net nf 0).delays, d = 2000) ∧
      (∀ d0 d1 d2 : ChatCompletionResponse,
        net 0 = .ok d0 → net 1 = .ok d1 → net 2 = .ok d2 →
        hasImageResp d0 = false → hasImageResp d1 = false →
        hasImageResp d2 = true →
        requestImageGeneration net nf 0 =
          ⟨3, [2000, 2000], extractImageFromResponse nf d2⟩) := by
  intro net nf
  refine ⟨?_, ?_, ?_⟩
  · have h := requestImageGeneration_invariant net nf 2 0 (by omega)
    omega
  · exact (requestImageGeneration_invariant net nf 2 0 (by omega)).2
  · intro d0 d1 d2 h0 h1 h2 hi0 hi1 hi2
    have e2 : requestImageGeneration net nf 2 =
        ⟨1, [], extractImageFromResponse nf d2⟩ := by
      rw [requestImageGeneration, h2]
      simp only []
      rw [dif_neg (by omega)]
    have e1 : requestImageGeneration net nf 1 =
        ⟨2, [2000], extractImageFromResponse nf d2⟩ := by
      rw [requestImageGeneration, h1]
      simp only []
      rw [dif_pos ⟨hi1, by omega⟩]
      norm_num [e2]
    rw [requestImageGeneration, h0]
    simp only []
    rw [dif_pos ⟨hi0, by omega⟩]
    norm_num [e1]

/-- C2 witness: a concrete run (two imageless 2xx replies, then one with
an image payload) issues exactly 3 requests, two 2000 ms delays, and
returns the third reply's image. -/
theorem requestImageGeneration_retry_policy_witness :
    requestImageGeneration
        (fun n => if n = 0 then
            .ok ⟨[some ⟨some (.str "no image".data), none, none, none⟩]⟩
          else if n = 1 then
            .ok ⟨[some ⟨some (.str "no image".data), none, none, none⟩]⟩
          else .ok ⟨[some ⟨none, some [.str "https://img.example/x.png".data],
            some "tok".data, none⟩]⟩)
        (fun _ => .ok ("QUJD".data, "image/png".data)) 0 =
      ⟨3, [2000, 2000],
        extractImageFromResponse (fun _ => .ok ("QUJD".data, "image/png".data))
          ⟨[some ⟨none, some [.str "https://img.example/x.png".data],
            some "tok".data, none⟩]⟩⟩ ∧
      extractImageFromResponse (fun _ => .ok ("QUJD".data, "image/png".data))
          ⟨[some ⟨none, some [.str "https://img.example/x.png".data],
            some "tok".data, none⟩]⟩ =
        .ok ⟨"QUJD".data, "image/png".data, some "tok".data⟩ :=
  ⟨(requestImageGeneration_retry_policy _ _).2.2 _ _ _
      (by rfl) (by rfl) (by rfl) (by rfl) (by rfl) (by rfl),
    by rfl⟩

theorem jsRoundDiv_mono {a1 a2 : Nat} (b : Nat) (h : a1 ≤ a2) :
    jsRoundDiv a1 b ≤ jsRoundDiv a2 b := by
  unfold jsRoundDiv
  exact Nat.div_le_div_right (by omega)

/-- C8 (amended): the scene-count heuristic always lands in [4, 8], and
with the sentence count held fixed it is monotone non-decreasing in the
whitespace-stripped character count; the sentence signal of
`splitSentences` comes from splitting on runs of the clause punctuation
`。，；、` and ASCII comma/semicolon/newline, not on the
sentence-terminating marks `！？`/`.!?`. -/
theorem computeImageCount_range_mono :
    (∀ (content : List Char) (type : GenerationType),
      4 ≤ computeImageCount content type ∧ computeImageCount content type ≤ 8) ∧
    (∀ (sentenceCount c1 c2 : Nat) (type : GenerationType), c1 ≤ c2 →
      computeImageCountCore sentenceCount c1 type ≤
        computeImageCountCore sentenceCount c2 type) := by
  constructor
  · intro content type
    unfold computeImageCount computeImageCountCore
    constructor
    · exact Nat.le_max_left _ _
    · exact Nat.max_le.mpr ⟨by omega, Nat.min_le_left _ _⟩
  · intro sc c1 c2 type h
    unfold computeImageCountCore
    simp only []
    have h1 : jsRoundDiv c1 80 ≤ jsRoundDiv c2 80 := jsRoundDiv_mono 80 h
    have h2 : min 8 (max 4 (jsRoundDiv c1 80)) ≤ min 8 (max 4 (jsRoundDiv c2 80)) := by
      omega
    have h3 : jsRoundDiv
        ((if type = .sceneImages then sc else max 4 (jsRoundDiv sc 2)) +
          min 8 (max 4 (jsRoundDiv c1 80))) 2 ≤
        jsRoundDiv
        ((if type = .sceneImages then sc else max 4 (jsRoundDiv sc 2)) +
          min 8 (max 4 (jsRoundDiv c2 80))) 2 :=
      jsRoundDiv_mono 2 (by omega)
    omega

/-- C8 witness: a larger character count at the same sentence split never
lowers the scene count. -/
theorem computeImageCount_range_mono_witness :
    computeImageCountCore 5 100 .sceneImages ≤
      computeImageCountCore 5 300 .sceneImages :=
  computeImageCount_range_mono.2 5 100 300 .sceneImages (by omega)

/-- C8 counterexample: the sentence signal is not obtained by splitting
on sentence-terminating punctuation — the terminator `？` is not a split
point of `splitSentences`, while the non-terminating comma `，` is (the
spec-modelled `splitSentencesSpec` splits on the terminators). -/
theorem splitSentences_not_terminator_split :
    splitSentences "人生幾何？對酒當歌".data = ["人生幾何？對酒當歌".data] ∧
      splitSentencesSpec "人生幾何？對酒當歌".data =
        ["人生幾何".data, "對酒當歌".data] ∧
      splitSentences "對酒當歌，人生幾何".data =
        ["對酒當歌".data, "人生幾何".data] ∧
      splitSentencesSpec "對酒當歌，人生幾何".data =
        ["對酒當歌，人生幾何".data] := by
  refine ⟨?_, ?_, ?_, ?_⟩ <;>
    simp +decide [splitSentences, splitSentencesSpec, splitOnRuns]

theorem splitNS_nil : splitNewlineSemis [] = [[]] := by
  rw [splitNewlineSemis]

theorem splitNS_crlf (t : List Char) :
    splitNewlineSemis ('\r' :: '\n' :: t) = [] :: splitNewlineSemis t := by
  rw [splitNewlineSemis]

theorem splitNS_lf (t : List Char) :
    splitNewlineSemis ('\n' :: t) = [] :: splitNewlineSemis t := by
  rw [splitNewlineSemis]

theorem splitNS_semi (c : Char) (t : List Char) (h : isSemi c = true) :
    splitNewlineSemis (c :: t) =
      [] :: splitNewlineSemis (t.dropWhile isSemi) := by
  rw [splitNewlineSemis.eq_def]
  split
  · rename_i heq; cases heq
  · rename_i heq
    injection heq with h1 h2
    subst h1
    exact absurd h (by decide)
  · rename_i heq
    injection heq with h1 h2
    subst h1
    exact absurd h (by decide)
  · rename_i c2 rest heq
    injection heq with h1 h2
    subst h1; subst h2
    rw [if_pos h]

theorem splitNS_other (c : Char) (t : List Char) (h1 : isSemi c = false)
    (h2 : c ≠ '\n') (h3 : c ≠ '\r') :
    splitNewlineSemis (c :: t) =
      match splitNewlineSemis t with
      | s :: ss => (c :: s) :: ss
      | [] => [[c]] := by
  rw [splitNewlineSemis.eq_def]
  split
  · rename_i heq; cases heq
  · rename_i heq
    injection heq with ha hb
    exact absurd ha h3
  · rename_i heq
    injection heq with ha hb
    exact absurd ha h2
  · rename_i c2 rest heq
    injection heq with ha hb
    subst ha; subst hb
    rw [if_neg (by simp [h1])]

theorem splitNS_ne_nil : ∀ t, splitNewlineSemis t ≠ [] := by
  intro t
  rw [splitNewlineSemis.eq_def]
  split
  · simp
  · simp
  · simp
  · split
    · simp
    · split <;> simp

theorem splitNS_append_free (part : List Char)
    (hfree : ∀ c ∈ part, isSemi c = false ∧ c ≠ '\n' ∧ c ≠ '\r') (t : List Char) :
    splitNewlineSemis (part ++ t) =
      (part ++ (splitNewlineSemis t).headD []) :: (splitNewlineSemis t).tail := by
  induction part with
  | nil =>
    simp only [List.nil_append]
    rcases h : splitNewlineSemis t with _ | ⟨s, ss⟩
    · exact absurd h (splitNS_ne_nil t)
    · simp
  | cons c p ih =>
    have hc := hfree c (by simp)
    have hp : ∀ x ∈ p, isSemi x = false ∧ x ≠ '\n' ∧ x ≠ '\r' :=
      fun x hx => hfree x (by simp [hx])
    simp only [List.cons_append]
    rw [splitNS_other c (p ++ t) hc.1 hc.2.1 hc.2.2, ih hp]

theorem trimNE_nil : trimNE [] = none := by
  rfl

theorem filterMap_trimNE_eq (l : List (List Char)) :
    (l.map trimChars).filter (fun seg => seg.length > 0) = l.filterMap trimNE := by
  induction l with
  | nil => rfl
  | cons x xs ih =>
    simp only [List.map_cons, List.filter_cons, List.filterMap_cons]
    by_cases h : trimChars x = []
    · have htx : trimNE x = none := by simp [trimNE, h]
      rw [htx]
      simp [h, ih]
    · have hlen : (trimChars x).length > 0 := by
        cases hx : trimChars x with
        | nil => exact absurd hx h
        | cons a b => simp
      have htx : trimNE x = some (trimChars x) := by simp [trimNE, h]
      rw [htx]
      simp [hlen, ih]

theorem splitNS_dropSemis (u : List Char) :
    (splitNewlineSemis (u.dropWhile isSemi)).filterMap trimNE =
      (splitNewlineSemis u).filterMap trimNE := by
  cases u with
  | nil => simp [List.dropWhile]
  | cons c u2 =>
    by_cases hc : isSemi c
    · rw [List.dropWhile_cons, if_pos hc, splitNS_semi c u2 hc,
        List.filterMap_cons, trimNE_nil]
    · rw [List.dropWhile_cons, if_neg hc]

theorem splitNS_joinSep (sep : List Char)
    (hsep : ∀ u, ∃ v, splitNewlineSemis (sep ++ u) = [] :: v ∧
      v.filterMap trimNE = (splitNewlineSemis u).filterMap trimNE) :
    ∀ parts : List (List Char), parts ≠ [] →
    (∀ part ∈ parts, ∀ c ∈ part, isSemi c = false ∧ c ≠ '\n' ∧ c ≠ '\r') →
    (splitNewlineSemis (joinSep sep parts)).filterMap trimNE =
      parts.filterMap trimNE := by
  intro parts
  induction parts with
  | nil => intro h; exact absurd rfl h
  | cons p ps ih =>
    intro _ hfree
    have hp := hfree p (by simp)
    cases ps with
    | nil =>
      show (splitNewlineSemis (joinSep sep [p])).filterMap trimNE = _
      have hsplit : splitNewlineSemis p = [p] := by
        have h := splitNS_append_free p hp []
        rw [List.append_nil] at h
        simpa [splitNS_nil] using h
      show (splitNewlineSemis p).filterMap trimNE = [p].filterMap trimNE
      rw [hsplit]
    | cons q qs =>
      have hjoin : joinSep sep (p :: q :: qs) = p ++ (sep ++ joinSep sep (q :: qs)) := by
        simp [joinSep, List.append_assoc]
      obtain ⟨v, hv1, hv2⟩ := hsep (joinSep sep (q :: qs))
      have happ := splitNS_append_free p hp (sep ++ joinSep sep (q :: qs))
      rw [hjoin, happ, hv1]
      have hih := ih (by simp) (fun part hpart => hfree part (by simp [hpart]))
      simp only [List.headD_cons, List.tail_cons, List.append_nil, List.filterMap_cons]
      simp only [hv2, hih]
      cases trimNE p <;> simp [List.filterMap_cons]

/-- C9: normalizing an array-shaped field supplied as a single
delimiter-joined string splits on the full-width/half-width semicolons and
on line breaks, trims each segment and discards empty ones; in a native
list every non-string item is dropped; and every normalized item is
non-empty. -/
theorem normalizeStringArray_policy :
    (∀ sep : List Char,
      sep = "；".data ∨ sep = ";".data ∨ sep = "\n".data ∨ sep = "\r\n".data →
      ∀ parts : List (List Char), parts ≠ [] →
      (∀ part ∈ parts, ∀ c ∈ part, isSemi c = false ∧ c ≠ '\n' ∧ c ≠ '\r') →
      normalizeStringArray (some (.str (joinSep sep parts))) =
        (parts.map trimChars).filter (fun seg => seg.length > 0)) ∧
    (∀ (xs ys : List JValue) (j : JValue), (∀ str, j ≠ .str str) →
      normalizeStringArray (some (.arr (xs ++ j :: ys))) =
        normalizeStringArray (some (.arr (xs ++ ys)))) ∧
    (∀ v : Option JValue, ∀ x ∈ normalizeStringArray v, x ≠ []) := by
  refine ⟨?_, ?_, ?_⟩
  · intro sep hsep parts hne hfree
    show ((splitNewlineSemis (joinSep sep parts)).map trimChars).filter
        (fun seg => seg.length > 0) = _
    rw [filterMap_trimNE_eq, filterMap_trimNE_eq]
    apply splitNS_joinSep sep ?_ parts hne hfree
    rcases hsep with rfl | rfl | rfl | rfl
    · intro u
      exact ⟨splitNewlineSemis (u.dropWhile isSemi),
        splitNS_semi _ _ (by decide), splitNS_dropSemis u⟩
    · intro u
      exact ⟨splitNewlineSemis (u.dropWhile isSemi),
        splitNS_semi _ _ (by decide), splitNS_dropSemis u⟩
    · intro u
      exact ⟨splitNewlineSemis u, splitNS_lf u, rfl⟩
    · intro u
      exact ⟨splitNewlineSemis u, splitNS_crlf u, rfl⟩
  · intro xs ys j hj
    show (((xs ++ j :: ys).map _).filter _) = (((xs ++ ys).map _).filter _)
    rw [List.map_append, List.map_append, List.map_cons,
      List.filter_append, List.filter_append, List.filter_cons]
    cases j with
    | str s => exact absurd rfl (hj s)
    | null => simp
    | bool b => simp
    | num q => simp
    | arr items => simp
    | obj fields => simp
  · intro v x hx
    match v with
    | none => simp [normalizeStringArray] at hx
    | some .null => simp [normalizeStringArray] at hx
    | some (.bool b) => simp [normalizeStringArray] at hx
    | some (.num q) => simp [normalizeStringArray] at hx
    | some (.obj fields) => simp [normalizeStringArray] at hx
    | some (.arr items) =>
      unfold normalizeStringArray at hx
      have := List.of_mem_filter hx
      simp only [gt_iff_lt, decide_eq_true_eq] at this
      intro hnil
      rw [hnil] at this
      simp at this
    | some (.str s) =>
      unfold normalizeStringArray at hx
      have := List.of_mem_filter hx
      simp only [gt_iff_lt, decide_eq_true_eq] at this
      intro hnil
      rw [hnil] at this
      simp at this

/-- C9 witness: the string `" a ；；b\n c "` normalizes to the trimmed
non-empty segments, and a numeric item in a native list vanishes. -/
theorem normalizeStringArray_policy_witness :
    normalizeStringArray (some (.str (joinSep "；".data
        [" a ".data, [], "b".data]))) =
      (([" a ".data, [], "b".data]).map trimChars).filter
        (fun seg => seg.length > 0) ∧
      normalizeStringArray (some (.arr ([.str "x".data] ++ JValue.num 3 :: [.str "y".data]))) =
        normalizeStringArray (some (.arr ([.str "x".data] ++ [.str "y".data]))) :=
  ⟨normalizeStringArray_policy.1 "；".data (by simp) _ (by simp)
      (by decide),
    normalizeStringArray_policy.2.1 [.str "x".data] [.str "y".data]
      (JValue.num 3) (fun str h => JValue.noConfusion h)⟩

theorem replaceAllChar_append (d : Char) (rep a b : List Char) :
    replaceAllChar d rep (a ++ b) = replaceAllChar d rep a ++ replaceAllChar d rep b := by
  simp [replaceAllChar]

theorem replaceAllChar_cons (d : Char) (rep : List Char) (x : Char) (l : List Char) :
    replaceAllChar d rep (x :: l) =
      (if x = d then rep else [x]) ++ replaceAllChar d rep l := by
  simp [replaceAllChar]

theorem escapeHtml_cons (c : Char) (l : List Char) :
    escapeHtml (c :: l) = escapeHtmlChar c ++ escapeHtml l := by
  unfold escapeHtml
  rw [replaceAllChar_cons, replaceAllChar_append, replaceAllChar_append,
    replaceAllChar_append, replaceAllChar_append]
  congr 1
  by_cases h1 : c = '&'
  · subst h1; rfl
  by_cases h2 : c = '<'
  · subst h2; rfl
  by_cases h3 : c = '>'
  · subst h3; rfl
  by_cases h4 : c = '"'
  · subst h4; rfl
  by_cases h5 : c = '\''
  · subst h5; rfl
  simp [escapeHtmlChar, replaceAllChar, h1, h2, h3, h4, h5]

theorem escapeHtml_eq_flatMap (l : List Char) :
    escapeHtml l = l.flatMap escapeHtmlChar := by
  induction l with
  | nil => rfl
  | cons c t ih => rw [escapeHtml_cons, List.flatMap_cons, ih]

theorem escapeHtmlChar_mem (a c : Char) (h : c ∈ escapeHtmlChar a) :
    c ≠ '<' ∧ c ≠ '>' ∧ c ≠ '"' ∧ c ≠ '\'' := by
  unfold escapeHtmlChar at h
  by_cases h1 : a = '&'
  · rw [if_pos h1] at h
    have h6 : c ∈ ['&', 'a', 'm', 'p', ';'] := h
    rcases h6 with _ | ⟨_, _ | ⟨_, _ | ⟨_, _ | ⟨_, _ | ⟨_, h7⟩⟩⟩⟩⟩ <;>
      first | decide | cases h7
  · rw [if_neg h1] at h
    by_cases h2 : a = '<'
    · rw [if_pos h2] at h
      have h6 : c ∈ ['&', 'l', 't', ';'] := h
      rcases h6 with _ | ⟨_, _ | ⟨_, _ | ⟨_, _ | ⟨_, h7⟩⟩⟩⟩ <;>
        first | decide | cases h7
    · rw [if_neg h2] at h
      by_cases h3 : a = '>'
      · rw [if_pos h3] at h
        have h6 : c ∈ ['&', 'g', 't', ';'] := h
        rcases h6 with _ | ⟨_, _ | ⟨_, _ | ⟨_, _ | ⟨_, h7⟩⟩⟩⟩ <;>
          first | decide | cases h7
      · rw [if_neg h3] at h
        by_cases h4 : a = '"'
        · rw [if_pos h4] at h
          have h6 : c ∈ ['&', 'q', 'u', 'o', 't', ';'] := h
          rcases h6 with _ | ⟨_, _ | ⟨_, _ | ⟨_, _ | ⟨_, _ | ⟨_, _ | ⟨_, h7⟩⟩⟩⟩⟩⟩ <;>
            first | decide | cases h7
        · rw [if_neg h4] at h
          by_cases h5 : a = '\''
          · rw [if_pos h5] at h
            have h6 : c ∈ ['&', '#', '3', '9', ';'] := h
            rcases h6 with _ | ⟨_, _ | ⟨_, _ | ⟨_, _ | ⟨_, _ | ⟨_, h7⟩⟩⟩⟩⟩ <;>
              first | decide | cases h7
          · rw [if_neg h5] at h
            have h6 : c ∈ [a] := h
            rcases h6 with _ | ⟨_, h7⟩
            · exact ⟨h2, h3, h4, h5⟩
            · cases h7

theorem escapeHtml_no_markup_chars (l : List Char) :
    '<' ∉ escapeHtml l ∧ '>' ∉ escapeHtml l ∧
      '"' ∉ escapeHtml l ∧ '\'' ∉ escapeHtml l := by
  rw [escapeHtml_eq_flatMap]
  refine ⟨?_, ?_, ?_, ?_⟩ <;>
    · intro hmem
      rw [List.mem_flatMap] at hmem
      obtain ⟨a, _, hc⟩ := hmem
      have := escapeHtmlChar_mem a _ hc
      simp_all

theorem take_cons_ne (x y : Char) (l tgt : List Char) (k : Nat) (hk : 0 < k)
    (hxy : x ≠ y) : ¬((x :: l).take k = y :: tgt) := by
  cases k with
  | zero => omega
  | succ n =>
    rw [List.take_succ_cons]
    intro h
    injection h with h1 _
    exact hxy h1

theorem amp_cons_amp (rest : List Char) :
    ampersandsAreEntities ('&' :: rest) =
      ((decide (rest.take 4 = "amp;".data) && ampersandsAreEntities (rest.drop 4)) ||
       (decide (rest.take 3 = "lt;".data) && ampersandsAreEntities (rest.drop 3)) ||
       (decide (rest.take 3 = "gt;".data) && ampersandsAreEntities (rest.drop 3)) ||
       (decide (rest.take 5 = "quot;".data) && ampersandsAreEntities (rest.drop 5)) ||
       (decide (rest.take 4 = "#39;".data) && ampersandsAreEntities (rest.drop 4))) := by
  rw [ampersandsAreEntities.eq_def]
  split
  · rename_i heq; cases heq
  · rename_i heq
    injection heq with h1 h2
    subst h2
    rfl
  · rename_i hne heq
    injection heq with h1 h2
    exact absurd h1.symm hne

theorem amp_cons_ne (a : Char) (t : List Char) (h : a ≠ '&') :
    ampersandsAreEntities (a :: t) = ampersandsAreEntities t := by
  rw [ampersandsAreEntities.eq_def]
  split
  · rename_i heq; cases heq
  · rename_i heq
    injection heq with h1 _
    exact absurd h1 h
  · rename_i heq
    injection heq with _ h2
    rw [h2]

theorem amp_entities_append_char (a : Char) (t : List Char) :
    ampersandsAreEntities (escapeHtmlChar a ++ t) = ampersandsAreEntities t := by
  unfold escapeHtmlChar
  by_cases h1 : a = '&'
  · rw [if_pos h1]
    show ampersandsAreEntities ('&' :: ("amp;".data ++ t)) = _
    rw [amp_cons_amp]
    have e1 : decide (("amp;".data ++ t).take 4 = "amp;".data) = true := rfl
    have e2 : decide (("amp;".data ++ t).take 3 = "lt;".data) = false := rfl
    have e3 : decide (("amp;".data ++ t).take 3 = "gt;".data) = false := rfl
    have e4 : decide (("amp;".data ++ t).take 5 = "quot;".data) = false := rfl
    have e5 : decide (("amp;".data ++ t).take 4 = "#39;".data) = false := rfl
    have d1 : ("amp;".data ++ t).drop 4 = t := rfl
    rw [e1, e2, e3, e4, e5]
    simp [d1]
  rw [if_neg h1]
  by_cases h2 : a = '<'
  · rw [if_pos h2]
    show ampersandsAreEntities ('&' :: ("lt;".data ++ t)) = _
    rw [amp_cons_amp]
    have e1 : decide (("lt;".data ++ t).take 4 = "amp;".data) = false := rfl
    have e2 : decide (("lt;".data ++ t).take 3 = "lt;".data) = true := rfl
    have e3 : decide (("lt;".data ++ t).take 3 = "gt;".data) = false := rfl
    have e4 : decide (("lt;".data ++ t).take 5 = "quot;".data) = false := rfl
    have e5 : decide (("lt;".data ++ t).take 4 = "#39;".data) = false := rfl
    have d1 : ("lt;".data ++ t).drop 3 = t := rfl
    rw [e1, e2, e3, e4, e5]
    simp [d1]
  rw [if_neg h2]
  by_cases h3 : a = '>'
  · rw [if_pos h3]
    show ampersandsAreEntities ('&' :: ("gt;".data ++ t)) = _
    rw [amp_cons_amp]
    have e1 : decide (("gt;".data ++ t).take 4 = "amp;".data) = false := rfl
    have e2 : decide (("gt;".data ++ t).take 3 = "lt;".data) = false := rfl
    have e3 : decide (("gt;".data ++ t).take 3 = "gt;".data) = true := rfl
    have e4 : decide (("gt;".data ++ t).take 5 = "quot;".data) = false := rfl
    have e5 : decide (("gt;".data ++ t).take 4 = "#39;".data) = false := rfl
    have d1 : ("gt;".data ++ t).drop 3 = t := rfl
    rw [e1, e2, e3, e4, e5]
    simp [d1]
  rw [if_neg h3]
  by_cases h4 : a = '\"'
  · rw [if_pos h4]
    show ampersandsAreEntities ('&' :: ("quot;".data ++ t)) = _
    rw [amp_cons_amp]
    have e1 : decide (("quot;".data ++ t).take 4 = "amp;".data) = false := rfl
    have e2 : decide (("quot;".data ++ t).take 3 = "lt;".data) = false := rfl
    have e3 : decide (("quot;".data ++ t).take 3 = "gt;".data) = false := rfl
    have e4 : decide (("quot;".data ++ t).take 5 = "quot;".data) = true := rfl
    have e5 : decide (("quot;".data ++ t).take 4 = "#39;".data) = false := rfl
    have d1 : ("quot;".data ++ t).drop 5 = t := rfl
    rw [e1, e2, e3, e4, e5]
    simp [d1]
  rw [if_neg h4]
  by_cases h5 : a = '\''
  · rw [if_pos h5]
    show ampersandsAreEntities ('&' :: ("#39;".data ++ t)) = _
    rw [amp_cons_amp]
    have e1 : decide (("#39;".data ++ t).take 4 = "amp;".data) = false := rfl
    have e2 : decide (("#39;".data ++ t).take 3 = "lt;".data) = false := rfl
    have e3 : decide (("#39;".data ++ t).take 3 = "gt;".data) = false := rfl
    have e4 : decide (("#39;".data ++ t).take 5 = "quot;".data) = false := rfl
    have e5 : decide (("#39;".data ++ t).take 4 = "#39;".data) = true := rfl
    have d1 : ("#39;".data ++ t).drop 4 = t := rfl
    rw [e1, e2, e3, e4, e5]
    simp [d1]
  rw [if_neg h5]
  show ampersandsAreEntities (a :: t) = _
  exact amp_cons_ne a t h1

theorem amp_nil : ampersandsAreEntities [] = true := by
  rw [ampersandsAreEntities]

theorem escapeHtml_amp_ok (l : List Char) :
    ampersandsAreEntities (escapeHtml l) = true := by
  rw [escapeHtml_eq_flatMap]
  induction l with
  | nil =>
    rw [show ([] : List Char).flatMap escapeHtmlChar = [] from rfl]
    exact amp_nil
  | cons c t ih =>
    rw [List.flatMap_cons, amp_entities_append_char]
    exact ih

theorem countLt_append (a b : List Char) :
    countLt (a ++ b) = countLt a + countLt b := by
  simp [countLt, List.count_append]

theorem countLt_escapeHtml (v : List Char) : countLt (escapeHtml v) = 0 := by
  simp [countLt, List.count_eq_zero]
  exact (escapeHtml_no_markup_chars v).1

theorem countLt_flatten (ls : List (List Char)) :
    countLt ls.flatten = (ls.map countLt).sum := by
  induction ls with
  | nil => rfl
  | cons x xs ih =>
    rw [List.flatten_cons, countLt_append, List.map_cons, List.sum_cons, ih]

theorem sum_map_constant {α : Type} (l : List α) (k : Nat) :
    (l.map (fun _ => k)).sum = k * l.length := by
  induction l with
  | nil => simp
  | cons x xs ih =>
    rw [List.map_cons, List.sum_cons, ih, List.length_cons]
    ring

theorem countLt_timelineRow (item : TimelineEntry) :
    countLt (timelineRowHtml item) = 6 := by
  unfold timelineRowHtml
  repeat rw [countLt_append]
  repeat rw [countLt_escapeHtml]
  have h1 : countLt ("<tr><td>".data) = 2 := by decide
  have h2 : countLt ("</td><td>".data) = 2 := by decide
  have h3 : countLt ("</td></tr>".data) = 2 := by decide
  omega

theorem countLt_figureItem (figure : ComparatorFigure) :
    countLt (figureItemHtml figure) = 2 := by
  unfold figureItemHtml
  repeat rw [countLt_append]
  repeat rw [countLt_escapeHtml]
  have h1 : countLt ("<li>".data) = 1 := by decide
  have h2 : countLt (" — 作品：".data) = 0 := by decide
  have h3 : countLt ("。理由：".data) = 0 := by decide
  have h4 : countLt ("</li>".data) = 1 := by decide
  omega

theorem countLt_flatten_rows {α : Type} (f : α → List Char) (g : α → Nat)
    (h : ∀ x, countLt (f x) = g x) (l : List α) :
    countLt ((l.map f).flatten) = (l.map g).sum := by
  induction l with
  | nil => rfl
  | cons x xs ih =>
    rw [List.map_cons, List.flatten_cons, countLt_append, h, List.map_cons,
      List.sum_cons, ih]

theorem countLt_regionSection (region : ComparatorRegion) :
    countLt (regionSectionHtml region) = 6 + 2 * region.figures.length := by
  unfold regionSectionHtml
  repeat rw [countLt_append]
  repeat rw [countLt_escapeHtml]
  rw [countLt_flatten_rows figureItemHtml (fun _ => 2) countLt_figureItem,
    sum_map_constant]
  have h1 : countLt ("<section><h4>".data) = 2 := by decide
  have h2 : countLt ("</h4><ul>".data) = 2 := by decide
  have h3 : countLt ("</ul></section>".data) = 2 := by decide
  omega

theorem countLt_matrixRow (row : ComparisonMatrixRow) :
    countLt (matrixRowHtml row) = 16 := by
  unfold matrixRowHtml
  repeat rw [countLt_append]
  repeat rw [countLt_escapeHtml]
  have h1 : countLt ("<tr><td>".data) = 2 := by decide
  have h2 : countLt ("</td><td>".data) = 2 := by decide
  have h3 : countLt ("</td></tr>".data) = 2 := by decide
  omega

theorem countLt_liItem (item : List Char) :
    countLt ("<li>".data ++ escapeHtml item ++ "</li>".data) = 2 := by
  repeat rw [countLt_append]
  repeat rw [countLt_escapeHtml]
  have h1 : countLt ("<li>".data) = 1 := by decide
  have h2 : countLt ("</li>".data) = 1 := by decide
  omega

theorem countLt_analysisRow (sentence : AnalysisSentence) :
    countLt (analysisRowHtml sentence) = 10 + 2 * sentence.explanation.length := by
  unfold analysisRowHtml
  repeat rw [countLt_append]
  repeat rw [countLt_escapeHtml]
  rw [countLt_flatten_rows (fun item => "<li>".data ++ escapeHtml item ++ "</li>".data)
    (fun _ => 2) countLt_liItem, sum_map_constant]
  have h1 : countLt ("\n        <tr>\n          <td>".data) = 2 := by decide
  have h2 : countLt ("</td>\n          <td>".data) = 2 := by decide
  have h3 : countLt ("</td>\n          <td><ul>".data) = 3 := by decide
  have h4 : countLt ("</ul></td>\n        </tr>".data) = 3 := by decide
  omega

theorem countLt_buildComparativeHtml (r : ComparativeAnalysisResult) :
    countLt (buildComparativeHtml r) =
      48 + 6 * r.timelineAnchors.length +
        (r.comparatorShortlist.map (fun reg => 6 + 2 * reg.figures.length)).sum +
        16 * r.comparisonMatrix.length := by
  unfold buildComparativeHtml
  repeat rw [countLt_append]
  repeat rw [countLt_escapeHtml]
  rw [countLt_flatten_rows timelineRowHtml (fun _ => 6) countLt_timelineRow,
    sum_map_constant,
    countLt_flatten_rows regionSectionHtml (fun reg => 6 + 2 * reg.figures.length)
      countLt_regionSection,
    countLt_flatten_rows matrixRowHtml (fun _ => 16) countLt_matrixRow,
    sum_map_constant]
  have h1 : countLt ("\\n<section>\\n  <h2>构建时空比较分析</h2>\\n  <h3>总览</h3>\\n  <p>".data) = 6 := by decide
  have h2 : countLt ("</p>\\n  <h3>时间锚点</h3>\\n  <table border=\"1\" cellpadding=\"6\" cellspacing=\"0\">\\n    <thead><tr><th>年份</th><th>事件 / 人物 / 作品（地区）</th></tr></thead>\\n    <tbody>".data) = 13 := by decide
  have h3 : countLt ("</tbody>\\n  </table>\\n  <h3>对比名单</h3>\\n  ".data) = 4 := by decide
  have h4 : countLt ("\\n  <h3>比较矩阵</h3>\\n  <table border=\"1\" cellpadding=\"6\" cellspacing=\"0\">\\n    <thead><tr><th>人物（地区）</th><th>代表作品</th><th>体裁</th><th>风格技法</th><th>主题</th><th>历史语境</th><th>影响 / 传播</th></tr></thead>\\n    <tbody>".data) = 22 := by decide
  have h5 : countLt ("</tbody>\\n  </table>\\n</section>".data) = 3 := by decide
  omega

theorem countLt_buildAnalysisHtml (r : AnalysisResult) :
    countLt (buildAnalysisHtml r) =
      18 + (r.sentences.map (fun s => 10 + 2 * s.explanation.length)).sum := by
  unfold buildAnalysisHtml
  repeat rw [countLt_append]
  rw [countLt_flatten_rows analysisRowHtml
    (fun s => 10 + 2 * s.explanation.length) countLt_analysisRow]
  have h1 : countLt ("\n<section>\n  <h2>逐句翻译与解析</h2>\n  <table border=\"1\" cellpadding=\"8\" cellspacing=\"0\">\n    <thead>\n      <tr>\n        <th>原文</th>\n        <th>现代汉语翻译</th>\n        <th>关键词与解析</th>\n      </tr>\n    </thead>\n    <tbody>\n      ".data) = 15 := by decide
  have h2 : countLt ("\n    </tbody>\n  </table>\n</section>".data) = 3 := by decide
  omega

theorem countLt_buildHistoryHtml (r : HistoricalContextResult) :
    countLt (buildHistoryHtml r) = 10 + 2 * r.recentEvents.length := by
  unfold buildHistoryHtml
  repeat rw [countLt_append]
  repeat rw [countLt_escapeHtml]
  rw [countLt_flatten_rows (fun item => "<li>".data ++ escapeHtml item ++ "</li>".data)
    (fun _ => 2) countLt_liItem, sum_map_constant]
  have h1 : countLt ("\n<section>\n  <h2>历史背景分析</h2>\n  <p>".data) = 4 := by decide
  have h2 : countLt ("</p>\n  <h3>成稿前 1-3 年关键事件</h3>\n  <ul>".data) = 4 := by decide
  have h3 : countLt ("</ul>\n</section>".data) = 2 := by decide
  omega

/-- C10: `escapeHtml` output contains none of the four markup characters
and every ampersand in it heads one of its five emitted entities; since
every model-supplied field of the exported comparative, analysis and
history documents passes through it, the number of tags (`<`) of each
exported fragment is a function of the result's shape alone — model text
cannot inject markup. -/
theorem escapeHtml_injection_safety :
    (∀ value : List Char,
      ('<' ∉ escapeHtml value ∧ '>' ∉ escapeHtml value ∧
        '"' ∉ escapeHtml value ∧ '\'' ∉ escapeHtml value) ∧
      ampersandsAreEntities (escapeHtml value) = true) ∧
    (∀ r : ComparativeAnalysisResult,
      countLt (buildComparativeHtml r) =
        48 + 6 * r.timelineAnchors.length +
          (r.comparatorShortlist.map (fun reg => 6 + 2 * reg.figures.length)).sum +
          16 * r.comparisonMatrix.length) ∧
    (∀ r : AnalysisResult,
      countLt (buildAnalysisHtml r) =
        18 + (r.sentences.map (fun s => 10 + 2 * s.explanation.length)).sum) ∧
    (∀ r : HistoricalContextResult,
      countLt (buildHistoryHtml r) = 10 + 2 * r.recentEvents.length) :=
  ⟨fun value => ⟨escapeHtml_no_markup_chars value, escapeHtml_amp_ok value⟩,
    countLt_buildComparativeHtml, countLt_buildAnalysisHtml, countLt_buildHistoryHtml⟩

/-- C10 witness: the escape of a concrete hostile string has no markup
characters, and a one-row comparative result exports exactly its
template's tags. -/
theorem escapeHtml_injection_safety_witness :
    '<' ∉ escapeHtml ("<script>alert(1)</script>&\"x\'".data) ∧
      countLt (buildComparativeHtml
        ⟨"<snap>".data, [⟨"\"y\"".data, "<d>".data⟩], [], []⟩) = 54 := by
  refine ⟨(escapeHtml_injection_safety.1 _).1.1, ?_⟩
  rw [escapeHtml_injection_safety.2.1
    ⟨"<snap>".data, [⟨"\"y\"".data, "<d>".data⟩], [], []⟩]
  decide
